import Mathlib

/-! # egt: the tar archive resource, its plan modifier and the tarx helpers

A shallow embedding of `internal/provider`, `internal/tarx`, `internal/iox` and
`internal/errorsx`, together with the parts of the Go standard library they drive
(`crypto/sha256`, `encoding/hex`, `encoding/base64`, `archive/tar`, `compress/gzip`,
`io`, `os`).

Conventions.
* A Go `[]byte` and a Go `string` are both `Bytes`, a list of byte values.
* A Go `error` is an `Option Error`; `none` is `nil`.
* A Go object that is mutated through a pointer is passed in and handed back.
* The byte layout of a tar header block and the output of the DEFLATE compressor are
  black boxes (`Codec`); everything that decides control flow is modelled.
-/

set_option autoImplicit false
set_option linter.unusedVariables false

namespace Egt

/-- A Go byte slice, or a Go string seen as its bytes. -/
abbrev Bytes := List Nat

/-- The bytes of an ASCII string literal. -/
def ascii (s : String) : Bytes := s.toList.map Char.toNat

/-- Go error values that the modelled code can produce. -/
inductive Error where
  /-- The encoding/base64 CorruptInputError, with the offending input offset. -/
  | CorruptInputError (off : Nat)
  /-- The archive/tar ErrWriteTooLong. -/
  | ErrWriteTooLong
  /-- The archive/tar ErrWriteAfterClose. -/
  | ErrWriteAfterClose
  /-- The archive/tar ErrFieldTooLong. -/
  | ErrFieldTooLong
  /-- The archive/tar error "missed writing n bytes". -/
  | missedWriting (nb : Nat)
  /-- The archive/tar headerError: no format can encode the header. -/
  | headerError
  /-- The ErrShortWrite of package io. -/
  | ErrShortWrite
  /-- The compress/flate write-after-close error. -/
  | errWriterClosed
  /-- An error number reported by the operating system. -/
  | errno (code : Nat)
  /-- The gzip or tar reader rejects its input. -/
  | badArchive
  /-- An error with a message attached by errorsx.Wrap. -/
  | wrapped (cause : Error) (msg : String)
deriving DecidableEq, Repr

/-! ## crypto/sha256 -/

namespace sha256

def K : List Nat := [
  0x428a2f98, 0x71374491, 0xb5c0fbcf, 0xe9b5dba5, 0x3956c25b, 0x59f111f1, 0x923f82a4, 0xab1c5ed5,
  0xd807aa98, 0x12835b01, 0x243185be, 0x550c7dc3, 0x72be5d74, 0x80deb1fe, 0x9bdc06a7, 0xc19bf174,
  0xe49b69c1, 0xefbe4786, 0x0fc19dc6, 0x240ca1cc, 0x2de92c6f, 0x4a7484aa, 0x5cb0a9dc, 0x76f988da,
  0x983e5152, 0xa831c66d, 0xb00327c8, 0xbf597fc7, 0xc6e00bf3, 0xd5a79147, 0x06ca6351, 0x14292967,
  0x27b70a85, 0x2e1b2138, 0x4d2c6dfc, 0x53380d13, 0x650a7354, 0x766a0abb, 0x81c2c92e, 0x92722c85,
  0xa2bfe8a1, 0xa81a664b, 0xc24b8b70, 0xc76c51a3, 0xd192e819, 0xd6990624, 0xf40e3585, 0x106aa070,
  0x19a4c116, 0x1e376c08, 0x2748774c, 0x34b0bcb5, 0x391c0cb3, 0x4ed8aa4a, 0x5b9cca4f, 0x682e6ff3,
  0x748f82ee, 0x78a5636f, 0x84c87814, 0x8cc70208, 0x90befffa, 0xa4506ceb, 0xbef9a3f7, 0xc67178f2]

/-- Reduction of a sum to a uint32. -/
def w32 (x : Nat) : Nat := x % 4294967296

def rotr (x n : Nat) : Nat := w32 ((x >>> n) ||| (x <<< (32 - n)))

def bsig0 (x : Nat) : Nat := rotr x 2 ^^^ rotr x 13 ^^^ rotr x 22

def bsig1 (x : Nat) : Nat := rotr x 6 ^^^ rotr x 11 ^^^ rotr x 25

def ssig0 (x : Nat) : Nat := rotr x 7 ^^^ rotr x 18 ^^^ (x >>> 3)

def ssig1 (x : Nat) : Nat := rotr x 17 ^^^ rotr x 19 ^^^ (x >>> 10)

def ch (x y z : Nat) : Nat := (x &&& y) ^^^ ((x ^^^ 0xffffffff) &&& z)

def maj (x y z : Nat) : Nat := (x &&& y) ^^^ (x &&& z) ^^^ (y &&& z)

/-- Big-endian 32-bit words of a block. -/
def words : Bytes → List Nat
  | a :: b :: c :: d :: rest => (a * 16777216 + b * 65536 + c * 256 + d) :: words rest
  | _ => []

/-- The message schedule, most recent word first; `n` further words are derived. -/
def schedule : Nat → List Nat → List Nat
  | 0, r => r
  | n + 1, r =>
    schedule n (w32 (ssig1 (r.getD 1 0) + r.getD 6 0 + ssig0 (r.getD 14 0) + r.getD 15 0) :: r)

/-- The eight working variables. -/
structure Regs where
  a : Nat
  b : Nat
  c : Nat
  d : Nat
  e : Nat
  f : Nat
  g : Nat
  h : Nat
deriving DecidableEq, Repr

def round (s : Regs) (kw : Nat × Nat) : Regs :=
  let t1 := s.h + bsig1 s.e + ch s.e s.f s.g + kw.1 + kw.2
  let t2 := bsig0 s.a + maj s.a s.b s.c
  { a := w32 (t1 + t2), b := s.a, c := s.b, d := s.c, e := w32 (s.d + t1), f := s.e, g := s.f,
    h := s.g }

/-- Compression of one 64-byte block into the chaining value. -/
def block (s : Regs) (blk : Bytes) : Regs :=
  let w := (schedule 48 (words blk).reverse).reverse
  let t := (K.zip w).foldl round s
  { a := w32 (s.a + t.a), b := w32 (s.b + t.b), c := w32 (s.c + t.c), d := w32 (s.d + t.d),
    e := w32 (s.e + t.e), f := w32 (s.f + t.f), g := w32 (s.g + t.g), h := w32 (s.h + t.h) }

def init : Regs :=
  { a := 0x6a09e667, b := 0xbb67ae85, c := 0x3c6ef372, d := 0xa54ff53a,
    e := 0x510e527f, f := 0x9b05688c, g := 0x1f83d9ab, h := 0x5be0cd19 }

/-- Big-endian bytes of `x`, `n` of them. -/
def be (n : Nat) (x : Nat) : Bytes :=
  (List.range n).reverse.map fun i => (x >>> (8 * i)) % 256

/-- Message padding: a one bit, zeros, and the bit length on 64 bits. -/
def pad (m : Bytes) : Bytes :=
  m.map (· % 256) ++ [0x80] ++ List.replicate ((119 - m.length % 64) % 64) 0 ++ be 8 (8 * m.length)

def blocks : Nat → Regs → Bytes → Regs
  | 0, s, _ => s
  | n + 1, s, p => blocks n (block s (p.take 64)) (p.drop 64)

/-- The function sha256.Sum256: the 32-byte SHA-256 of `m`. A hash object made by
sha256.New, written to and then asked for Sum(nil), returns Sum256 of all it was given. -/
def Sum256 (m : Bytes) : Bytes :=
  let p := pad m
  let s := blocks (p.length / 64) init p
  [s.a, s.b, s.c, s.d, s.e, s.f, s.g, s.h].flatMap (be 4)

end sha256

/-! ## encoding/hex -/

namespace hex

def hextable : Bytes := ascii "0123456789abcdef"

/-- The function hex.EncodeToString. -/
def EncodeToString (src : Bytes) : Bytes :=
  src.flatMap fun v => [hextable.getD (v / 16 % 16) 0, hextable.getD (v % 16) 0]

end hex

/-! ## encoding/base64, StdEncoding -/

namespace base64

/-- The alphabet of StdEncoding. -/
def encodeStd : Bytes :=
  ascii "ABCDEFGHIJKLMNOPQRSTUVWXYZabcdefghijklmnopqrstuvwxyz0123456789+/"

/-- The padding character of StdEncoding. -/
def padChar : Nat := 61

/-- The decode map of StdEncoding; 255 marks a byte outside the alphabet. -/
def decodeMap (c : Nat) : Nat :=
  if 65 ≤ c ∧ c ≤ 90 then c - 65
  else if 97 ≤ c ∧ c ≤ 122 then c - 71
  else if 48 ≤ c ∧ c ≤ 57 then c + 4
  else if c = 43 then 62
  else if c = 47 then 63
  else 255

/-- The sextet values collected for one quantum, as the bytes they denote; `dlen`
sextets were read and `dlen - 1` bytes come out (non-strict decoding). -/
def quantumBytes (dbuf : List Nat) : Bytes :=
  let val := dbuf.getD 0 0 * 262144 + dbuf.getD 1 0 * 4096 + dbuf.getD 2 0 * 64 + dbuf.getD 3 0
  [val / 65536 % 256, val / 256 % 256, val % 256].take (dbuf.length - 1)

/-- Skips CR and LF; returns what is left and the new input offset. -/
def skipNewlines : Bytes → Nat → Bytes × Nat
  | [], si => ([], si)
  | c :: rest, si => if c = 10 ∨ c = 13 then skipNewlines rest (si + 1) else (c :: rest, si)

/-- The loop of Encoding.Decode over decodeQuantum: `src` is the unread input, `si` its
offset, `dbuf` the sextets of the quantum under way, `acc` the bytes decoded, `len` the
input length. The result is the decoded bytes and the error. -/
def decodeLoop (len : Nat) : Bytes → Nat → List Nat → Bytes → Bytes × Option Error
  | [], si, dbuf, acc =>
    if dbuf.length = 0 then (acc, none)
    else (acc, some (.CorruptInputError (si - dbuf.length)))
  | c :: rest, si, dbuf, acc =>
    if decodeMap c ≠ 255 then
      if dbuf.length = 3 then decodeLoop len rest (si + 1) [] (acc ++ quantumBytes (dbuf ++ [decodeMap c]))
      else decodeLoop len rest (si + 1) (dbuf ++ [decodeMap c]) acc
    else if c = 10 ∨ c = 13 then decodeLoop len rest (si + 1) dbuf acc
    else if c ≠ padChar then (acc, some (.CorruptInputError si))
    else if dbuf.length < 2 then (acc, some (.CorruptInputError si))
    else if dbuf.length = 2 then
      -- a second padding character is expected
      match skipNewlines rest (si + 1) with
      | ([], _) => (acc, some (.CorruptInputError len))
      | (c2 :: rest2, si2) =>
        if c2 ≠ padChar then (acc, some (.CorruptInputError (si2 - 1)))
        else
          match skipNewlines rest2 (si2 + 1) with
          | ([], _) => (acc ++ quantumBytes dbuf, none)
          | (_ :: _, si3) => (acc ++ quantumBytes dbuf, some (.CorruptInputError si3))
    else
      match skipNewlines rest (si + 1) with
      | ([], _) => (acc ++ quantumBytes dbuf, none)
      | (_ :: _, si3) => (acc ++ quantumBytes dbuf, some (.CorruptInputError si3))

/-- The method StdEncoding.DecodeString: the decoded bytes and the error. -/
def DecodeString (s : Bytes) : Bytes × Option Error :=
  decodeLoop s.length s 0 [] []

/-- The character for a sextet. -/
def enc (v : Nat) : Nat := encodeStd.getD (v % 64) 0

/-- The method StdEncoding.Encode, with padding. -/
def Encode : Bytes → Bytes
  | [] => []
  | [a] => [enc (a % 256 / 4), enc (a % 256 % 4 * 16), padChar, padChar]
  | [a, b] =>
    [enc (a % 256 / 4), enc (a % 256 % 4 * 16 + b % 256 / 16), enc (b % 256 % 16 * 4), padChar]
  | a :: b :: c :: rest =>
    [enc (a % 256 / 4), enc (a % 256 % 4 * 16 + b % 256 / 16),
     enc (b % 256 % 16 * 4 + c % 256 / 64), enc (c % 256 % 64)] ++ Encode rest

end base64

/-! ## internal/errorsx -/

namespace errorsx

/-- Modelled from the spec: errorsx.Wrap is called by tarx but its body is not among
the sources. The error policy of the spec (the first error met is surfaced to the caller)
and the call sites (Pack returns Wrap of the result of Flush) fix it as: nil stays nil,
and an error stays an error, with the message attached. -/
def Wrap (err : Option Error) (msg : String) : Option Error :=
  match err with
  | none => none
  | some e => some (.wrapped e msg)

/-- Compact returns the first error in the set, if any. -/
def Compact : List (Option Error) → Option Error
  | [] => none
  | err :: errs => if err ≠ none then err else Compact errs

/-- MaybeLog: what reaches the log, no line for a nil error. -/
def MaybeLog (err : Option Error) : List Error :=
  match err with
  | none => []
  | some e => [e]

end errorsx

/-! ## os.File and io.Writer -/

/-- Something with a Write method: the new state, the count and the error. -/
class GoWriter (σ : Type) where
  Write : σ → Bytes → σ × Nat × Option Error

namespace os

/-- The error number for "no space left on device". -/
def ENOSPC : Nat := 28

/-- An open read-write file. `room` bounds the bytes that can still be written before
writes fail (`none`: no bound); `seeks` holds the outcome of the Seek calls to come, in
order (exhausted: they succeed); `readErr` is the error that reads meet, if any. -/
structure File where
  data : Bytes := []
  off : Nat := 0
  room : Option Nat := none
  seeks : List (Option Error) := []
  readErr : Option Error := none
deriving DecidableEq, Repr

/-- The bytes of the file once `p` is stored at the current offset. -/
def File.store (f : File) (p : Bytes) : File :=
  { f with
    data := f.data.take f.off ++ List.replicate (f.off - f.data.length) 0 ++ p
      ++ f.data.drop (f.off + p.length)
    off := f.off + p.length }

/-- The method File.Write. -/
def File.Write (f : File) (p : Bytes) : File × Nat × Option Error :=
  match f.room with
  | none => (f.store p, p.length, none)
  | some r =>
    if p.length ≤ r then ({ f.store p with room := some (r - p.length) }, p.length, none)
    else ({ f.store (p.take r) with room := some 0 }, r, some (.errno ENOSPC))

/-- The call Seek(0, io.SeekStart): a failed seek leaves the offset where it was. -/
def File.SeekStart (f : File) : File × Option Error :=
  match f.seeks with
  | [] => ({ f with off := 0 }, none)
  | none :: rest => ({ f with off := 0, seeks := rest }, none)
  | some e :: rest => ({ f with seeks := rest }, some e)

/-- The function io.ReadAll over a file: everything from the offset to the end. -/
def File.ReadAll (f : File) : File × Bytes × Option Error :=
  match f.readErr with
  | some e => (f, [], some e)
  | none => ({ f with off := max f.off f.data.length }, f.data.drop f.off, none)

/-- A file as os.CreateTemp returns it: empty, at offset 0. -/
def CreateTemp : File := {}

end os

instance : GoWriter os.File := ⟨os.File.Write⟩

/-! ## internal/iox -/

namespace iox

/-- Rewind an io.Seeker. -/
def Rewind (o : os.File) : os.File × Option Error :=
  o.SeekStart

/-- String reads the entire string from a reader; a seeker is rewound first. -/
def String (f : os.File) : os.File × Bytes × Option Error :=
  match Rewind f with
  | (f1, some err) => (f1, [], some err)
  | (f1, none) =>
    match f1.ReadAll with
    | (f2, _, some err) => (f2, [], some err)
    | (f2, raw, none) => (f2, raw, none)

end iox

/-! ## The black boxes -/

namespace tar

/-- A time.Time; `nsec = 0` is the zero time. -/
structure Time where
  nsec : Int := 0
deriving DecidableEq, Repr

/-- The fields of tar.Header that the repository sets, and Typeflag; the other fields
keep their zero value, Format included. -/
structure Header where
  Typeflag : Nat := 0
  Name : Bytes := []
  Size : Int := 0
  Mode : Int := 0
  ChangeTime : Time := {}
deriving DecidableEq, Repr

end tar

/-- What the tar and gzip readers make of a byte stream. -/
structure Parsed where
  /-- The error of gzip.NewReader. -/
  gzErr : Option Error := none
  /-- The headers that successive calls of Next return. -/
  entries : List (Option tar.Header) := []
  /-- What ends the archive: `none` for io.EOF, or the error of Next. -/
  last : Option Error := none
  /-- How far into the input the readers have read. -/
  consumed : Nat := 0

/-- The compressor of compress/flate under a gzip.Writer, as a black box that depends only
on the input taken so far: `emit x b` is what it hands to the layer below when the byte
`b` arrives after the input `x`, and `finish x` is what Close hands down after the input
`x`, the rest of the DEFLATE stream and the gzip trailer (CRC-32 and size). -/
structure Compressor where
  emit : Bytes → Nat → Bytes
  finish : Bytes → Bytes

/-- The parts of archive/tar and compress/gzip whose byte-level output is not modelled:
the header blocks of the three tar formats (PAX and GNU can still fail on an oversized
record), the compressor, and the reading side. -/
structure Codec where
  ustar : tar.Header → Bytes
  pax : tar.Header → Except Error Bytes
  gnu : tar.Header → Except Error Bytes
  flate : Compressor
  read : Bytes → Parsed

/-! ## The streaming base64 encoder and the gzip writer -/

namespace base64

/-- The writer made by base64.NewEncoder(StdEncoding, w): `buf` holds the bytes of an
incomplete group, `err` is sticky. -/
structure encoder where
  w : os.File
  buf : Bytes := []
  err : Option Error := none
deriving DecidableEq, Repr

/-- The method encoder.Write: complete groups of three bytes are encoded and handed to
the file, the rest waits in `buf`. -/
def encoder.Write (e : encoder) (p : Bytes) : encoder × Nat × Option Error :=
  match e.err with
  | some err => (e, 0, some err)
  | none =>
    let all := e.buf ++ p
    let k := all.length / 3 * 3
    if k = 0 then ({ e with buf := all }, p.length, none)
    else
      match e.w.Write (Encode (all.take k)) with
      | (w1, _, some err) => ({ e with w := w1, err := some err }, 0, some err)
      | (w1, _, none) => ({ e with w := w1, buf := all.drop k }, p.length, none)

/-- The method encoder.Close: the incomplete group is flushed, padded. -/
def encoder.Close (e : encoder) : encoder × Option Error :=
  if e.err = none ∧ e.buf ≠ [] then
    match e.w.Write (Encode e.buf) with
    | (w1, _, err) => ({ e with w := w1, err := err, buf := [] }, err)
  else (e, e.err)

/-- The function base64.NewEncoder for StdEncoding. -/
def NewEncoder (dst : os.File) : encoder := { w := dst }

end base64

instance : GoWriter base64.encoder := ⟨base64.encoder.Write⟩

namespace gzip

/-- The ten header bytes that a Writer with default fields sends: the magic number, the
deflate method, no flags, no modification time, no extra flags, unknown operating
system. -/
def header : Bytes := [31, 139, 8, 0, 0, 0, 0, 0, 0, 255]

/-- What the compressor hands down while it takes `p` after the input `x`. -/
def flushed (c : Compressor) : Bytes → Bytes → Bytes
  | _, [] => []
  | x, b :: p => c.emit x b ++ flushed c (x ++ [b]) p

/-- A write to the layer below, made only when there is something to send. -/
def send (w : base64.encoder) (out : Bytes) : base64.encoder × Option Error :=
  if out = [] then (w, none)
  else
    match w.Write out with
    | (w1, _, err) => (w1, err)

/-- The writer made by gzip.NewWriter: `buf` is the uncompressed input taken so far,
`wroteHeader` tells that the header has gone down, `err` is sticky. -/
structure Writer where
  w : base64.encoder
  compressor : Compressor
  buf : Bytes := []
  wroteHeader : Bool := false
  closed : Bool := false
  err : Option Error := none

/-- The method Writer.Write: the first call, even with nothing to write, sends the header;
then the compressor takes `p` and hands down what it has ready. After Close the
compressor refuses the write. -/
def Writer.Write (z : Writer) (p : Bytes) : Writer × Nat × Option Error :=
  match z.err with
  | some err => (z, 0, some err)
  | none =>
    match (if z.wroteHeader then (z.w, none) else send z.w header) with
    | (w1, some err) => ({ z with w := w1, wroteHeader := true, err := some err }, 0, some err)
    | (w1, none) =>
      if z.closed then
        ({ z with w := w1, wroteHeader := true, err := some .errWriterClosed }, 0,
          some .errWriterClosed)
      else
        match send w1 (flushed z.compressor z.buf p) with
        | (w2, some err) =>
          ({ z with w := w2, wroteHeader := true, buf := z.buf ++ p, err := some err }, 0, some err)
        | (w2, none) => ({ z with w := w2, wroteHeader := true, buf := z.buf ++ p }, p.length, none)

/-- The method Writer.Close: the header goes down if no Write has sent it, then the
compressor is closed and the trailer written. -/
def Writer.Close (z : Writer) : Writer × Option Error :=
  match z.err with
  | some err => (z, some err)
  | none =>
    if z.closed then (z, none)
    else
      match (if z.wroteHeader then (z.w, none) else send z.w header) with
      | (w1, some err) =>
        ({ z with w := w1, wroteHeader := true, closed := true, err := some err }, some err)
      | (w1, none) =>
        match send w1 (z.compressor.finish z.buf) with
        | (w2, err) => ({ z with w := w2, wroteHeader := true, closed := true, err := err }, err)

/-- The function gzip.NewWriter, with the compressor it will drive. -/
def NewWriter (C : Codec) (w : base64.encoder) : Writer := { w := w, compressor := C.flate }

end gzip

/-- The gzip stream of a complete input: the header, what the compressor hands down
while it takes the input, and what Close adds. -/
def Codec.gzip (C : Codec) (x : Bytes) : Bytes :=
  gzip.header ++ gzip.flushed C.flate [] x ++ C.flate.finish x

instance : GoWriter gzip.Writer := ⟨gzip.Writer.Write⟩

/-! ## archive/tar, the writer -/

namespace tar

def TypeReg : Nat := 48
def TypeRegA : Nat := 0
def TypeLink : Nat := 49
def TypeSymlink : Nat := 50
def TypeChar : Nat := 51
def TypeBlock : Nat := 52
def TypeDir : Nat := 53
def TypeFifo : Nat := 54
def TypeXHeader : Nat := 120
def TypeXGlobalHeader : Nat := 103
def TypeGNUSparse : Nat := 83
def TypeGNULongName : Nat := 76
def TypeGNULongLink : Nat := 75

/-- The function isHeaderOnlyType. -/
def isHeaderOnlyType (flag : Nat) : Bool :=
  flag = TypeLink || flag = TypeSymlink || flag = TypeChar || flag = TypeBlock || flag = TypeDir
    || flag = TypeFifo

/-- The function isASCII: no byte is NUL or above 127. -/
def isASCII (s : Bytes) : Bool := s.all fun c => decide (0 < c ∧ c < 128)

/-- The function hasNUL. -/
def hasNUL (s : Bytes) : Bool := s.contains 0

/-- The call strings.HasSuffix(name, "/"). -/
def hasSlashSuffix (s : Bytes) : Bool := s.getLast? = some 47

/-- The call strings.LastIndex(s, "/"). -/
def lastSlash (s : Bytes) : Option Nat :=
  if s.reverse.indexOf 47 < s.length then some (s.length - 1 - s.reverse.indexOf 47) else none

/-- The function splitUSTARPath, its ok result: the name splits into a directory part
of at most 155 bytes and a last part of at most 100. -/
def splitUSTARPath (name : Bytes) : Bool :=
  if name.length ≤ 100 || !isASCII name then false
  else
    let length :=
      if name.length > 156 then 156
      else if name.getLast? = some 47 then name.length - 1
      else name.length
    match lastSlash (name.take length) with
    | none => false
    | some i => !(i = 0 || name.length - i - 1 > 100 || name.length - i - 1 = 0 || i > 155)

/-- The formats that may encode a header. -/
structure Formats where
  ustar : Bool
  pax : Bool
  gnu : Bool
deriving DecidableEq, Repr

/-- The method Header.allowedFormats, for a header whose other fields are zero: the
formats left, or the header error. -/
def allowedFormats (h : Header) : Except Error Formats :=
  let longOrForeign := !isASCII h.Name || decide (h.Name.length > 100)
  let modeOctal := decide (0 ≤ h.Mode ∧ h.Mode < 2097152)
  let modeBinary := decide (-72057594037927936 ≤ h.Mode ∧ h.Mode < 72057594037927936)
  let sizeOctal := decide (0 ≤ h.Size ∧ h.Size < 8589934592)
  let ustar := (!longOrForeign || splitUSTARPath h.Name) && modeOctal && sizeOctal
  let pax := modeOctal
  let gnu := !hasNUL h.Name && modeBinary
  if (h.Typeflag = TypeReg ∨ h.Typeflag = TypeChar ∨ h.Typeflag = TypeBlock
      ∨ h.Typeflag = TypeFifo ∨ h.Typeflag = TypeGNUSparse) ∧ hasSlashSuffix h.Name then
    .error .headerError
  else if h.Typeflag = TypeXHeader ∨ h.Typeflag = TypeGNULongName
      ∨ h.Typeflag = TypeGNULongLink then
    .error .headerError
  else if h.Typeflag = TypeXGlobalHeader ∧ h ≠ { Typeflag := h.Typeflag, Name := h.Name } then
    .error .headerError
  else if !isHeaderOnlyType h.Typeflag ∧ h.Size < 0 then
    .error .headerError
  else if longOrForeign ∧ hasNUL h.Name then
    -- the PAX path record is not valid
    .error .headerError
  else
    let fm : Formats :=
      if h.Typeflag = TypeXGlobalHeader then { ustar := false, pax := pax, gnu := false }
      else { ustar := ustar, pax := pax, gnu := gnu }
    if !fm.ustar ∧ !fm.pax ∧ !fm.gnu then .error .headerError else .ok fm

/-- The function blockPadding. -/
def blockPadding (offset : Nat) : Nat := (512 - offset % 512) % 512

/-- The header as WriteHeader takes it: the legacy type flag is promoted to a regular
file, or to a directory when the name ends in a slash, and the change time is dropped
because no format is asked for. -/
def normalize (hdr : Header) : Header :=
  { hdr with
    Typeflag :=
      if hdr.Typeflag = TypeRegA then (if hasSlashSuffix hdr.Name then TypeDir else TypeReg)
      else hdr.Typeflag
    ChangeTime := {} }

/-- The header bytes that WriteHeader sends for a normalized header, by the first format
allowed among USTAR, PAX and GNU (for a global header the padding of its records is
counted with these bytes). -/
def encodeHeader (C : Codec) (h : Header) (fm : Formats) : Except Error Bytes :=
  if fm.ustar then .ok (C.ustar h) else if fm.pax then C.pax h else C.gnu h

/-- The content size of the entry that a normalized header opens. -/
def entrySize (h : Header) : Nat :=
  if isHeaderOnlyType h.Typeflag then 0 else h.Size.toNat

/-- A tar.Writer over the writer `w`: `nb` is what the current entry is still owed
(the regFileWriter), `pad` the padding due after it, `err` is sticky. -/
structure Writer (σ : Type) where
  w : σ
  pad : Nat := 0
  nb : Nat := 0
  err : Option Error := none
deriving DecidableEq, Repr

/-- The function tar.NewWriter. -/
def NewWriter {σ : Type} (w : σ) : Writer σ := { w := w }

variable {σ : Type} [GoWriter σ]

/-- The method Writer.Flush. -/
def Writer.Flush (tw : Writer σ) : Writer σ × Option Error :=
  match tw.err with
  | some e => (tw, some e)
  | none =>
    if tw.nb > 0 then (tw, some (.missedWriting tw.nb))
    else
      match GoWriter.Write tw.w (List.replicate tw.pad 0) with
      | (w1, _, some e) => ({ tw with w := w1, err := some e }, some e)
      | (w1, _, none) => ({ tw with w := w1, pad := 0 }, none)

/-- The method Writer.writeRawHeader. -/
def Writer.writeRawHeader (tw : Writer σ) (blk : Bytes) (size : Nat) : Writer σ × Option Error :=
  match tw.Flush with
  | (tw1, some e) => (tw1, some e)
  | (tw1, none) =>
    match GoWriter.Write tw1.w blk with
    | (w1, _, some e) => ({ tw1 with w := w1 }, some e)
    | (w1, _, none) => ({ tw1 with w := w1, nb := size, pad := blockPadding size }, none)

/-- The method Writer.WriteHeader. A header that no format can encode is reported but
does not poison the writer; an error of the chosen format or of the writer below does. -/
def Writer.WriteHeader (C : Codec) (tw : Writer σ) (hdr : Header) : Writer σ × Option Error :=
  match tw.Flush with
  | (tw1, some e) => (tw1, some e)
  | (tw1, none) =>
    let h := normalize hdr
    match allowedFormats h with
    | .error e => (tw1, some e)
    | .ok fm =>
      match encodeHeader C h fm with
      | .error e => ({ tw1 with err := some e }, some e)
      | .ok blk =>
        match tw1.writeRawHeader blk (entrySize h) with
        | (tw2, e) => ({ tw2 with err := e }, e)

/-- The method Writer.Write, through regFileWriter.Write: at most `nb` bytes go down,
and a longer `b` is answered with ErrWriteTooLong, which is not sticky. -/
def Writer.Write (tw : Writer σ) (b : Bytes) : Writer σ × Nat × Option Error :=
  match tw.err with
  | some e => (tw, 0, some e)
  | none =>
    let overwrite := decide (b.length > tw.nb)
    let b1 := if overwrite then b.take tw.nb else b
    match (if b1.length > 0 then GoWriter.Write tw.w b1 else (tw.w, 0, none)) with
    | (w1, n, some e) =>
      ({ tw with w := w1, nb := tw.nb - n, err := if e = .ErrWriteTooLong then none else some e },
        n, some e)
    | (w1, n, none) =>
      ({ tw with w := w1, nb := tw.nb - n }, n, if overwrite then some .ErrWriteTooLong else none)

/-- The two zero blocks of the trailer, written while no error has occurred. -/
def Writer.trailer (w : σ) : Nat → σ × Option Error
  | 0 => (w, none)
  | n + 1 =>
    match GoWriter.Write w (List.replicate 512 0) with
    | (w1, _, some e) => (w1, some e)
    | (w1, _, none) => Writer.trailer w1 n

/-- The method Writer.Close. -/
def Writer.Close (tw : Writer σ) : Writer σ × Option Error :=
  if tw.err = some .ErrWriteAfterClose then (tw, none)
  else
    match tw.err with
    | some e => (tw, some e)
    | none =>
      match tw.Flush with
      | (tw1, some e) => ({ tw1 with err := some .ErrWriteAfterClose }, some e)
      | (tw1, none) =>
        match Writer.trailer tw1.w 2 with
        | (w1, e) => ({ tw1 with w := w1, err := some .ErrWriteAfterClose }, e)

end tar

instance {σ : Type} [GoWriter σ] : GoWriter (tar.Writer σ) := ⟨tar.Writer.Write⟩

/-! ## strings.Reader, bytes.Reader and io.Copy -/

namespace strings

/-- A strings.Reader or bytes.Reader over `s`, read up to index `i`. -/
structure Reader where
  s : Bytes
  i : Nat := 0
deriving DecidableEq, Repr

/-- The functions strings.NewReader and bytes.NewReader. -/
def NewReader (s : Bytes) : Reader := { s := s }

/-- The method Reader.Size: the length of the underlying string, read or not. -/
def Reader.Size (r : Reader) : Int := r.s.length

end strings

namespace io

/-- The readers handed to io.Copy: a strings.Reader or bytes.Reader, which copies itself
with one Write (it is an io.WriterTo), or any other reader, given by the chunks that its
Read calls return and by what ends them (`none`: io.EOF). -/
inductive Reader where
  | mem (r : strings.Reader)
  | stream (chunks : List Bytes) (last : Option Error)
deriving DecidableEq, Repr

/-- The size of the buffer of io.Copy. -/
def bufSize : Nat := 32768

/-- Successive reads of at most `n` bytes; `fuel` bounds their number. -/
def chunksOf (n : Nat) : Nat → Bytes → List Bytes
  | 0, _ => []
  | fuel + 1, b => if b = [] then [] else b.take n :: chunksOf n fuel (b.drop n)

/-- The reader io.TeeReader(bytes.NewReader(b), tap) as io.Copy sees it: reads of up to
bufSize bytes, then io.EOF. What io.Copy pulls from it is what the tap is given. -/
def TeeReader (b : Bytes) : Reader := .stream (chunksOf bufSize b.length b) none

variable {σ : Type} [GoWriter σ]

/-- The loop of io.Copy over a reader without WriteTo: the writer, the count written,
the error, and the bytes pulled from the reader. -/
def copyLoop : List Bytes → Option Error → tar.Writer σ → Nat → Bytes →
    tar.Writer σ × Nat × Option Error × Bytes
  | [], last, tw, written, pulled => (tw, written, last, pulled)
  | c :: cs, last, tw, written, pulled =>
    if c.length = 0 then copyLoop cs last tw written pulled
    else
      match tw.Write c with
      | (tw1, nw, some ew) => (tw1, written + nw, some ew, pulled ++ c)
      | (tw1, nw, none) =>
        if c.length ≠ nw then (tw1, written + nw, some .ErrShortWrite, pulled ++ c)
        else copyLoop cs last tw1 (written + nw) (pulled ++ c)

/-- The function io.Copy into a tar writer: the writer, the count written, the error,
and the bytes pulled from the reader. -/
def Copy (tw : tar.Writer σ) (r : Reader) : tar.Writer σ × Nat × Option Error × Bytes :=
  match r with
  | .mem r =>
    if r.i ≥ r.s.length then (tw, 0, none, [])
    else
      match tw.Write (r.s.drop r.i) with
      | (tw1, m, err) =>
        (tw1, m, if m ≠ (r.s.drop r.i).length ∧ err = none then some .ErrShortWrite else err,
          (r.s.drop r.i).take m)
  | .stream chunks last => copyLoop chunks last tw 0 []

end io

/-! ## internal/tarx -/

namespace tarx

variable {σ : Type} [GoWriter σ]

/-- HeaderFromReader creates a header from a filename and reader. -/
def HeaderFromReader (filename : Bytes) (reader : strings.Reader) : tar.Header :=
  { Name := filename, Mode := 0o600, Size := reader.Size }

/-- NewHeader creates a new header. -/
def NewHeader (filename : Bytes) (ts : tar.Time) (size mode : Int) : tar.Header :=
  { Name := filename, Mode := 0o600, Size := size, ChangeTime := ts }

/-- CreateArchiveWith creates an archive with an initial header, reader, and writer. -/
def CreateArchiveWith (C : Codec) (dst : σ) (hdr : tar.Header) (reader : io.Reader) :
    tar.Writer σ × Option Error :=
  let tw := tar.NewWriter dst
  match tw.WriteHeader C hdr with
  | (tw1, some err) => (tw1, errorsx.Wrap (some err) "failed to write header to temp file")
  | (tw1, none) =>
    match io.Copy tw1 reader with
    | (tw2, _, some err, _) => (tw2, errorsx.Wrap (some err) "failed to copy content")
    | (tw2, _, none, _) => (tw2, none)

/-- WriteFileToArchive write a file to a tar given the contents and a header. The third
component is what was pulled from the reader, for a reader that is tapped. -/
def WriteFileToArchive (C : Codec) (tw : tar.Writer σ) (hdr : tar.Header) (reader : io.Reader) :
    tar.Writer σ × Option Error × Bytes :=
  match tw.WriteHeader C hdr with
  | (tw1, some err) => (tw1, errorsx.Wrap (some err) "failed to write header for tar archive", [])
  | (tw1, none) =>
    match io.Copy tw1 reader with
    | (tw2, _, some err, pulled) => (tw2, errorsx.Wrap (some err) "failed to copy content", pulled)
    | (tw2, _, none, pulled) => (tw2, none, pulled)

/-- A line on the log. -/
inductive LogLine where
  | reg (name : Bytes) (size : Int) (infoSize : Int)
  | failure (e : Error)
deriving DecidableEq, Repr

/-- The reader handed to Inspect: one that can seek, or one that cannot. -/
inductive Input where
  | seeker (f : os.File)
  | plain (data : Bytes)
deriving DecidableEq, Repr

/-- The gzip and tar readers run over the input from where it stands. -/
def readArchive (C : Codec) (r : Input) : Input × Parsed :=
  match r with
  | .seeker f =>
    match f.readErr with
    | some e => (.seeker f, { gzErr := some e })
    | none =>
      (.seeker { f with off := f.off + min (C.read (f.data.drop f.off)).consumed (f.data.length - f.off) },
        C.read (f.data.drop f.off))
  | .plain data => (.plain (data.drop (C.read data).consumed), C.read data)

/-- The loop of Inspect over the headers that Next returns. -/
def inspectEntries : List (Option tar.Header) → Option Error → List LogLine →
    Option Error × List LogLine
  | [], last, log => (last, log)
  | none :: rest, last, log => inspectEntries rest last log
  | some header :: rest, last, log =>
    if header.Typeflag = tar.TypeDir then inspectEntries rest last log
    else if header.Typeflag = tar.TypeReg then
      inspectEntries rest last (log ++ [.reg header.Name header.Size header.Size])
    else inspectEntries rest last log

/-- The part of Inspect that follows the first rewind. -/
def inspectBody (C : Codec) (r : Input) : Input × Option Error × List LogLine :=
  match readArchive C r with
  | (r1, parsed) =>
    match parsed.gzErr with
    | some err => (r1, errorsx.Wrap (some err) "failed to create gzip reader", [])
    | none =>
      match inspectEntries parsed.entries parsed.last [] with
      | (err, log) => (r1, err, log)

/-- Inspect prints to stderr information about the archive. -/
def Inspect (C : Codec) (r : Input) : Input × Option Error × List LogLine :=
  match r with
  | .seeker s =>
    match iox.Rewind s with
    | (s1, some err) => (.seeker s1, errorsx.Wrap (some err) "unable to seek to start of file", [])
    | (s1, none) =>
      match inspectBody C (.seeker s1) with
      | (.seeker s2, err, log) =>
        -- the deferred rewind
        match iox.Rewind s2 with
        | (s3, e3) =>
          (.seeker s3, err,
            log ++ (errorsx.MaybeLog (errorsx.Wrap e3 "unable to rewind")).map LogLine.failure)
      | (r2, err, log) => (r2, err, log)
  | .plain data => inspectBody C (.plain data)

end tarx

/-! ## internal/provider -/

namespace provider

/-- A value of the plugin framework (types.String, types.Int32, types.Int64). -/
inductive TfValue (α : Type) where
  | null
  | unknown
  | known (v : α)
deriving DecidableEq, Repr

/-- The method IsNull. -/
def TfValue.IsNull {α : Type} (v : TfValue α) : Bool :=
  match v with
  | .null => true
  | _ => false

/-- The method ValueString: the empty string for a null or unknown value. -/
def TfValue.ValueString (v : TfValue Bytes) : Bytes :=
  match v with
  | .known s => s
  | _ => []

/-- The method ValueInt32: zero for a null or unknown value. -/
def TfValue.ValueInt32 (v : TfValue Int) : Int :=
  match v with
  | .known n => n
  | _ => 0

structure SourceModel where
  Base64 : TfValue Bytes
  Location : TfValue Bytes
  Perm : TfValue Int := .null
  Digest : TfValue Bytes := .unknown
deriving DecidableEq, Repr

structure ArchiveResourceModel where
  Digest : TfValue Bytes := .unknown
  Sources : List SourceModel
  Timestamp : TfValue Int := .unknown
  ArchiveB64 : TfValue Bytes := .unknown
deriving DecidableEq, Repr

/-- The three writer layers of generate, the tar writer outermost, and dst at the
bottom. -/
abbrev Layers := tar.Writer gzip.Writer

/-- The loop of generate over data.Sources: the error, the sources as the loop leaves
them, the writer, and the bytes written to the aggregate hash. -/
def generateLoop (C : Codec) (ts : tar.Time) : List SourceModel → Layers → Bytes →
    Option Error × List SourceModel × Layers × Bytes
  | [], tw, digest => (none, [], tw, digest)
  | v :: vs, tw, digest =>
    match base64.DecodeString v.Base64.ValueString with
    | (_, some err) => (some err, v :: vs, tw, digest)
    | (decoded, none) =>
      let mode : Int := if !v.Perm.IsNull then v.Perm.ValueInt32 else 0o600
      match tarx.WriteFileToArchive C tw
          (tarx.NewHeader v.Location.ValueString ts decoded.length mode) (io.TeeReader decoded) with
      | (tw1, some err, localdigest) => (some err, v :: vs, tw1, digest ++ localdigest)
      | (tw1, none, localdigest) =>
        match generateLoop C ts vs tw1 (digest ++ localdigest) with
        | (err, vs1, tw2, digest2) =>
          (err,
            { v with Digest := .known (hex.EncodeToString (sha256.Sum256 localdigest)) } :: vs1,
            tw2, digest2)

/-- The deferred calls of generate: tw.Close, then gw.Close. -/
def deferred (tw : Layers) : Layers :=
  match tw.Close with
  | (tw1, _) =>
    match tw1.w.Close with
    | (gw1, _) => { tw1 with w := gw1 }

/-- The three Close calls whose results are passed to errorsx.Compact, evaluated left to
right: the layers as they leave them and the three results. -/
def closeLayers (tw : Layers) : Layers × List (Option Error) :=
  match tw.Close with
  | (tw1, e1) =>
    match tw1.w.Close with
    | (gw1, e2) =>
      match gw1.w.Close with
      | (b1, e3) => ({ tw1 with w := { gw1 with w := b1 } }, [e1, e2, e3])

/-- What a call of generate leaves behind. -/
structure Generated where
  err : Option Error
  data : ArchiveResourceModel
  /-- The writer layers, with dst at the bottom. -/
  tw : Layers
  /-- The bytes written to the aggregate hash. -/
  hashed : Bytes

/-- The method ArchiveResource.generate. -/
def generate (C : Codec) (ts : tar.Time) (dst : os.File) (data : ArchiveResourceModel) :
    Generated :=
  let b64 := base64.NewEncoder dst
  let gw := gzip.NewWriter C b64
  let tw : Layers := tar.NewWriter gw
  match generateLoop C ts data.Sources tw [] with
  | (some err, sources, tw1, digest) =>
    { err := some err, data := { data with Sources := sources }, tw := deferred tw1,
      hashed := digest }
  | (none, sources, tw1, digest) =>
    let data1 : ArchiveResourceModel :=
      { data with Sources := sources, Digest := .known (hex.EncodeToString (sha256.Sum256 digest)) }
    match closeLayers tw1 with
    | (tw2, errs) =>
      match errorsx.Compact errs with
      | some err => { err := some err, data := data1, tw := deferred tw2, hashed := digest }
      | none =>
        match iox.String tw2.w.w.w with
        | (f, _, some err) =>
          { err := some err, data := data1,
            tw := deferred { tw2 with w := { tw2.w with w := { tw2.w.w with w := f } } },
            hashed := digest }
        | (f, encodedstr, none) =>
          { err := none, data := { data1 with ArchiveB64 := .known encodedstr },
            tw := deferred { tw2 with w := { tw2.w with w := { tw2.w.w with w := f } } },
            hashed := digest }

/-- The diagnostic made by diag.NewAttributeErrorDiagnostic. -/
structure Diagnostic where
  path : String
  summary : String
  detail : Error
deriving DecidableEq, Repr

/-- The plan modifier request: the planned value of each sibling attribute. -/
structure StringRequest where
  Plan : String → Option (TfValue Bytes)

/-- The plan modifier response; every diagnostic recorded here is an error. -/
structure StringResponse where
  PlanValue : TfValue Bytes
  Diagnostics : List Diagnostic := []
deriving DecidableEq, Repr

/-- The method Diagnostics.HasError. -/
def StringResponse.HasError (resp : StringResponse) : Bool := !resp.Diagnostics.isEmpty

/-- The plan modifier useSHA256OfAttribute. -/
structure useSHA256OfAttribute where
  attrname : String

/-- The function UseSHA256OfAttribute. -/
def UseSHA256OfAttribute (attrname : String) : useSHA256OfAttribute := { attrname := attrname }

/-- The call req.Plan.GetAttribute into a zero types.String: an attribute that the plan
lacks leaves it null. -/
def GetAttribute (req : StringRequest) (name : String) : TfValue Bytes :=
  (req.Plan name).getD .null

/-- PlanModifyString implements the plan modification logic. -/
def useSHA256OfAttribute.PlanModifyString (m : useSHA256OfAttribute) (req : StringRequest)
    (resp : StringResponse) : StringResponse :=
  let b64 := GetAttribute req m.attrname
  match base64.DecodeString b64.ValueString with
  | (_, some err) =>
    { resp with
      Diagnostics := resp.Diagnostics ++ [{ path := m.attrname, summary := "failed to hash base64",
                                            detail := err }] }
  | (decoded, none) =>
    { resp with PlanValue := .known (hex.EncodeToString (sha256.Sum256 decoded)) }

end provider

/-! ## Vocabulary of the statements -/

/-- All the bytes that a reader yields before it ends. -/
def io.Reader.bytes : io.Reader → Bytes
  | .mem r => r.s.drop r.i
  | .stream chunks _ => chunks.flatten

/-- What ends a reader: `none` for io.EOF. -/
def io.Reader.last : io.Reader → Option Error
  | .mem _ => none
  | .stream _ last => last

/-- The raw bytes that a source decodes to. -/
def provider.SourceModel.decoded (v : provider.SourceModel) : Bytes :=
  (base64.DecodeString v.Base64.ValueString).1

/-- The decoded contents of the sources, one after the other. -/
def provider.contents (sources : List provider.SourceModel) : Bytes :=
  (sources.map provider.SourceModel.decoded).flatten

/-- The source with the digest that generate writes on it. -/
def provider.SourceModel.digested (v : provider.SourceModel) : provider.SourceModel :=
  { v with Digest := .known (hex.EncodeToString (sha256.Sum256 v.decoded)) }

/-- A codec for the examples: the header block is the name filled up to 512 bytes, PAX
and GNU records are refused, and the compressor stores: it holds everything until Close
and then hands the input down as it is. -/
def plainCodec : Codec where
  ustar := fun h => h.Name ++ List.replicate (512 - h.Name.length) 0
  pax := fun _ => .error .ErrFieldTooLong
  gnu := fun _ => .error .ErrFieldTooLong
  flate := { emit := fun _ _ => [], finish := fun x => x }
  read := fun _ => {}

/-- A codec for the examples whose compressor hands every byte down as it takes it. -/
def eagerCodec : Codec :=
  { plainCodec with flate := { emit := fun _ b => [b], finish := fun _ => [] } }

/-- The single source of the scenario: the content "what's up" at foo.bar. -/
def provider.whatsUp : provider.ArchiveResourceModel :=
  { Sources := [{ Base64 := .known (ascii "d2hhdCdzIHVw"), Location := .known (ascii "foo.bar") }] }

/-- A source with the given base64 text and location, perm unset. -/
def provider.src (b64 loc : String) : provider.SourceModel :=
  { Base64 := .known (ascii b64), Location := .known (ascii loc) }

/-- The encoder has been given the bytes `s` since it was made over a fresh file that
takes every write: the complete groups of `s` are in the file as base64 text and the
rest waits in the buffer. -/
def base64.encoder.holds (e : base64.encoder) (s : Bytes) : Prop :=
  e.err = none ∧ e.buf = s.drop (s.length / 3 * 3) ∧
    e.w = { data := base64.Encode (s.take (s.length / 3 * 3)),
            off := (base64.Encode (s.take (s.length / 3 * 3))).length }

/-- The gzip writer is open, without error, has taken the input `x`, and the encoder
below holds what the writer has sent for it: nothing before the first Write, then the
header and what the compressor has handed down. -/
def gzip.Writer.holds (z : gzip.Writer) (x : Bytes) : Prop :=
  z.err = none ∧ z.closed = false ∧ z.buf = x ∧ (z.wroteHeader = false → x = []) ∧
    z.w.holds (if z.wroteHeader then gzip.header ++ gzip.flushed z.compressor [] x else [])

/-! ## Theorems -/

/-! ### errorsx.Compact -/

theorem errorsx.Compact_eq_none_iff (errs : List (Option Error)) :
    errorsx.Compact errs = none ↔ ∀ e ∈ errs, e = none := by
  induction errs with
  | nil => simp [errorsx.Compact]
  | cons e errs ih =>
    cases e with
    | none => simp [errorsx.Compact, ih]
    | some x => simp [errorsx.Compact]

theorem errorsx.Compact_append_some (pre post : List (Option Error)) (e : Error)
    (hpre : ∀ x ∈ pre, x = none) : errorsx.Compact (pre ++ some e :: post) = some e := by
  induction pre with
  | nil => simp [errorsx.Compact]
  | cons x pre ih =>
    have hx : x = none := hpre x (by simp)
    subst hx
    simp only [List.cons_append, errorsx.Compact]
    simpa using ih (fun y hy => hpre y (by simp [hy]))

/-! ### The writer layers -/

section generic
variable {σ : Type} [GoWriter σ]

theorem tar.Flush_ok (tw tw1 : tar.Writer σ) (h : tw.Flush = (tw1, none)) :
    tw.err = none ∧ tw.nb = 0 ∧ tw1.err = none ∧ tw1.nb = 0 := by
  unfold tar.Writer.Flush at h
  split at h
  · simp at h
  · rename_i herr
    split at h
    · simp at h
    · rename_i hnb
      split at h
      · simp at h
      · simp only [Prod.mk.injEq, and_true] at h
        subst h
        simp [herr]
        omega

theorem tar.Flush_missed (tw : tar.Writer σ) (herr : tw.err = none) (hnb : 0 < tw.nb) :
    tw.Flush = (tw, some (.missedWriting tw.nb)) := by
  unfold tar.Writer.Flush
  simp [herr, hnb]

theorem tar.WriteHeader_ok (C : Codec) (tw tw1 : tar.Writer σ) (hdr : tar.Header)
    (h : tw.WriteHeader C hdr = (tw1, none)) :
    tw1.err = none ∧ tw1.nb = tar.entrySize (tar.normalize hdr) ∧
      ∃ fm blk, tar.allowedFormats (tar.normalize hdr) = .ok fm ∧
        tar.encodeHeader C (tar.normalize hdr) fm = .ok blk := by
  unfold tar.Writer.WriteHeader at h
  split at h
  · simp at h
  · rename_i twa hfl
    have hA := tar.Flush_ok _ _ hfl
    dsimp only at h
    split at h
    · simp at h
    · rename_i fm hfm
      split at h
      · simp at h
      · rename_i blk hblk
        unfold tar.Writer.writeRawHeader at h
        split at h
        · simp at h
        · rename_i twb hfl2
          have hB := tar.Flush_ok _ _ hfl2
          split at h
          · simp at h
          · simp only [Prod.mk.injEq, and_true] at h
            subst h
            exact ⟨rfl, rfl, fm, blk, hfm, hblk⟩

theorem tar.Write_ok (tw tw1 : tar.Writer σ) (b : Bytes) (n : Nat) (herr : tw.err = none)
    (h : tw.Write b = (tw1, n, none)) :
    b.length ≤ tw.nb ∧ tw1.err = none ∧ tw1.nb = tw.nb - n := by
  unfold tar.Writer.Write at h
  simp only [herr] at h
  split at h
  · simp at h
  · by_cases ho : b.length > tw.nb
    · simp [ho] at h
    · simp only [ho, decide_False, if_false, Prod.mk.injEq, and_true, Bool.false_eq_true] at h
      obtain ⟨h1, h2⟩ := h
      subst h1
      subst h2
      simp [herr]
      omega

theorem tar.Write_too_long (tw : tar.Writer σ) (b : Bytes) (h : b.length > tw.nb) :
    (tw.Write b).2.2 ≠ none := by
  unfold tar.Writer.Write
  split
  · simp
  · dsimp only
    split
    · simp
    · simp [h]

theorem io.copyLoop_ok (chunks : List Bytes) (last : Option Error) :
    ∀ (tw tw1 : tar.Writer σ) (written n : Nat) (pulled out : Bytes), tw.err = none →
      io.copyLoop chunks last tw written pulled = (tw1, n, none, out) →
      out = pulled ++ chunks.flatten ∧ tw1.err = none ∧ chunks.flatten.length ≤ tw.nb ∧
        tw1.nb = tw.nb - chunks.flatten.length ∧ last = none := by
  induction chunks with
  | nil =>
    intro tw tw1 written n pulled out herr h
    simp only [io.copyLoop, Prod.mk.injEq] at h
    obtain ⟨h1, _, h3, h4⟩ := h
    subst h1
    subst h4
    simp [herr, h3]
  | cons c cs ih =>
    intro tw tw1 written n pulled out herr h
    unfold io.copyLoop at h
    split at h
    · rename_i hc
      have hc0 : c = [] := List.length_eq_zero.mp hc
      subst hc0
      simpa using ih tw tw1 written n pulled out herr h
    · split at h
      · simp at h
      · rename_i twa nw hw
        have hW := tar.Write_ok tw twa c nw herr hw
        split at h
        · simp at h
        · rename_i hnw
          have hnw2 : c.length = nw := by simpa using hnw
          have := ih twa tw1 (written + nw) n (pulled ++ c) out hW.2.1 h
          obtain ⟨h1, h2, h3, h4, h5⟩ := this
          refine ⟨?_, h2, ?_, ?_, h5⟩
          · simp [h1]
          · simp only [List.flatten_cons, List.length_append]; omega
          · simp only [List.flatten_cons, List.length_append]; omega

theorem io.copyLoop_too_long (chunks : List Bytes) (last : Option Error) :
    ∀ (tw : tar.Writer σ) (written : Nat) (pulled : Bytes), tw.err = none →
      chunks.flatten.length > tw.nb →
      (io.copyLoop chunks last tw written pulled).2.2.1 ≠ none := by
  induction chunks with
  | nil =>
    intro tw written pulled herr h
    simp at h
  | cons c cs ih =>
    intro tw written pulled herr h
    unfold io.copyLoop
    split
    · rename_i hc
      have hc0 : c = [] := List.length_eq_zero.mp hc
      subst hc0
      exact ih tw written pulled herr (by simpa using h)
    · split
      · simp
      · rename_i twa nw hw
        have hW := tar.Write_ok tw twa c nw herr hw
        split
        · simp
        · rename_i hnw
          have hnw2 : c.length = nw := by simpa using hnw
          apply ih twa _ _ hW.2.1
          simp only [List.flatten_cons, List.length_append] at h
          omega

theorem io.Copy_ok (r : io.Reader) (tw tw1 : tar.Writer σ) (n : Nat) (out : Bytes)
    (herr : tw.err = none) (h : io.Copy tw r = (tw1, n, none, out)) :
    out = r.bytes ∧ tw1.err = none ∧ r.bytes.length ≤ tw.nb ∧
      tw1.nb = tw.nb - r.bytes.length ∧ r.last = none := by
  cases r with
  | mem r =>
    simp only [io.Copy] at h
    split at h
    · rename_i hi
      simp only [Prod.mk.injEq] at h
      obtain ⟨h1, _, _, h4⟩ := h
      subst h1
      subst h4
      have : r.s.drop r.i = [] := List.drop_eq_nil_of_le hi
      simp [io.Reader.bytes, io.Reader.last, this, herr]
    · rename_i hi
      generalize hw : tw.Write (List.drop r.i r.s) = res at h
      obtain ⟨twa, m, err⟩ := res
      simp only [Prod.mk.injEq] at h
      obtain ⟨h1, h2, h3, h4⟩ := h
      subst h1
      by_cases hm : m = (List.drop r.i r.s).length
      · have herr2 : err = none := by simpa [hm] using h3
        subst herr2
        have hW := tar.Write_ok tw twa _ m herr hw
        subst h4
        subst hm
        simp only [io.Reader.bytes, io.Reader.last, List.take_length]
        exact ⟨trivial, hW.2.1, hW.1, hW.2.2, trivial⟩
      · cases err with
        | none =>
          exfalso
          apply hm
          simpa using h3
        | some e => simp at h3
  | stream chunks last =>
    simp only [io.Copy] at h
    have := io.copyLoop_ok chunks last tw tw1 0 n [] out herr h
    simpa [io.Reader.bytes, io.Reader.last] using this

theorem io.Copy_too_long (r : io.Reader) (tw : tar.Writer σ) (herr : tw.err = none)
    (h : r.bytes.length > tw.nb) : (io.Copy tw r).2.2.1 ≠ none := by
  cases r with
  | mem r =>
    simp only [io.Reader.bytes] at h
    simp only [io.Copy]
    split
    · rename_i hi
      have : r.s.drop r.i = [] := List.drop_eq_nil_of_le hi
      simp [this] at h
    · have hW := tar.Write_too_long tw _ h
      generalize tw.Write (List.drop r.i r.s) = res at hW
      obtain ⟨twa, m, err⟩ := res
      cases err with
      | none => simp at hW
      | some e => simp
  | stream chunks last =>
    simp only [io.Copy]
    exact io.copyLoop_too_long chunks last tw 0 [] herr (by simpa [io.Reader.bytes] using h)

end generic

/-! ### Closing the layers -/

open provider

theorem tar.Close_err {σ : Type} [GoWriter σ] (tw : tar.Writer σ) : tw.Close.1.err ≠ none := by
  unfold tar.Writer.Close
  split
  · simp_all
  · split
    · simp_all
    · split <;> simp

theorem gzip.Close_done (z : gzip.Writer) :
    z.Close.1.closed = true ∨ z.Close.1.err ≠ none := by
  unfold gzip.Writer.Close
  split
  · simp_all
  · split
    · simp_all
    · split
      · simp
      · split
        simp

theorem base64.encoder_Close_done (e : base64.encoder) :
    e.Close.1.buf = [] ∨ e.Close.1.err ≠ none := by
  unfold base64.encoder.Close
  split
  · simp
  · rename_i h
    by_cases h1 : e.err = none
    · simp_all
    · simp_all

theorem generate_of_loop_ok (C : Codec) (ts : tar.Time) (dst : os.File)
    (data : ArchiveResourceModel) (sources : List SourceModel) (tw : Layers) (digest : Bytes)
    (hloop : generateLoop C ts data.Sources
      (tar.NewWriter (gzip.NewWriter C (base64.NewEncoder dst))) [] = (none, sources, tw, digest)) :
    (∀ e, errorsx.Compact (closeLayers tw).2 = some e → (generate C ts dst data).err = some e) ∧
    ((generate C ts dst data).err = none → errorsx.Compact (closeLayers tw).2 = none) ∧
    (generate C ts dst data).hashed = digest ∧
    (generate C ts dst data).data.Sources = sources ∧
    (generate C ts dst data).data.Digest = .known (hex.EncodeToString (sha256.Sum256 digest)) := by
  simp only [generate, hloop]
  cases hc : errorsx.Compact (closeLayers tw).2 with
  | some e =>
    simp only [hc]
    simp
  | none =>
    simp only [hc]
    split <;> simp

/-! ### The empty archive -/

theorem base64.Encode_take_drop : ∀ l : Bytes,
    base64.Encode (l.take (l.length / 3 * 3)) ++ base64.Encode (l.drop (l.length / 3 * 3))
      = base64.Encode l
  | [] => by simp [base64.Encode]
  | [a] => by simp [base64.Encode]
  | [a, b] => by simp [base64.Encode]
  | a :: b :: c :: rest => by
    have ih := base64.Encode_take_drop rest
    have hlen : (a :: b :: c :: rest).length / 3 * 3 = rest.length / 3 * 3 + 3 := by
      simp only [List.length_cons]; omega
    rw [hlen]
    simp only [List.take_succ_cons, List.drop_succ_cons, base64.Encode, List.append_assoc]
    rw [ih]

/-- Writing `z` through a fresh encoder over a fresh file and closing it leaves the
base64 text of `z` in the file. -/
theorem base64.encoder_fresh (z : Bytes) :
    ∃ e1 : base64.encoder,
      (base64.NewEncoder os.CreateTemp).Write z = (e1, z.length, none) ∧
      e1.Close.2 = none ∧
      e1.Close.1.w = { data := base64.Encode z, off := (base64.Encode z).length } := by
  have hE := base64.Encode_take_drop z
  by_cases hk : z.length / 3 * 3 = 0
  · refine ⟨{ w := os.CreateTemp, buf := z }, ?_, ?_, ?_⟩
    · simp [base64.encoder.Write, base64.NewEncoder, hk]
    · simp [base64.encoder.Close, os.File.Write, os.CreateTemp]
      split <;> simp
    · by_cases hz : z = []
      · subst hz
        simp [base64.encoder.Close, os.CreateTemp, base64.Encode]
      · simp [base64.encoder.Close, os.File.Write, os.CreateTemp, hz, os.File.store]
  · refine ⟨{ w := { data := base64.Encode (z.take (z.length / 3 * 3)),
                     off := (base64.Encode (z.take (z.length / 3 * 3))).length },
              buf := z.drop (z.length / 3 * 3) }, ?_, ?_, ?_⟩
    · simp [base64.encoder.Write, base64.NewEncoder, hk, os.File.Write, os.CreateTemp,
        os.File.store]
    · simp [base64.encoder.Close, os.File.Write]
      split <;> simp
    · by_cases hd : z.drop (z.length / 3 * 3) = []
      · rw [hd] at hE
        simp only [base64.Encode, List.append_nil] at hE
        simp [base64.encoder.Close, hd, hE]
      · have hl := congrArg List.length hE
        rw [List.length_append] at hl
        simp [base64.encoder.Close, hd, os.File.Write, os.File.store, hE, hl]
        omega

theorem iox.String_fresh (d : Bytes) (n : Nat) :
    iox.String { data := d, off := n } = ({ data := d, off := max 0 d.length }, d, none) := by
  simp [iox.String, iox.Rewind, os.File.SeekStart, os.File.ReadAll]

/-! ### The encoder and the gzip writer over a fresh file -/

theorem base64.Encode_append : ∀ (x y : Bytes), x.length % 3 = 0 →
    base64.Encode (x ++ y) = base64.Encode x ++ base64.Encode y
  | [], y, _ => by simp [base64.Encode]
  | [a], y, h => by simp at h
  | [a, b], y, h => by simp at h
  | a :: b :: c :: rest, y, h => by
    have ih := base64.Encode_append rest y (by simp only [List.length_cons] at h; omega)
    have ih2 : base64.Encode (rest.append y) = base64.Encode rest ++ base64.Encode y := ih
    simp only [List.cons_append, base64.Encode, List.append_assoc, List.nil_append, ih2]

theorem base64.encoder_holds_fresh : (base64.NewEncoder os.CreateTemp).holds [] := by
  simp [base64.encoder.holds, base64.NewEncoder, os.CreateTemp, base64.Encode]

theorem base64.encoder_holds_Write (e : base64.encoder) (s p : Bytes) (h : e.holds s) :
    ∃ e1, e.Write p = (e1, p.length, none) ∧ e1.holds (s ++ p) := by
  obtain ⟨herr, hbuf, hw⟩ := h
  have hk : s.length / 3 * 3 ≤ s.length := Nat.div_mul_le_self _ _
  have hk3 : (s.take (s.length / 3 * 3)).length % 3 = 0 := by
    rw [List.length_take, Nat.min_eq_left hk]; omega
  have hall : s ++ p = s.take (s.length / 3 * 3) ++ (e.buf ++ p) := by
    rw [hbuf, ← List.append_assoc, List.take_append_drop]
  have hlen : (e.buf ++ p).length = s.length - s.length / 3 * 3 + p.length := by
    rw [hbuf]; simp
  have hK : (s ++ p).length / 3 * 3 = s.length / 3 * 3 + (e.buf ++ p).length / 3 * 3 := by
    rw [hlen, List.length_append]; omega
  have htake : (s ++ p).take ((s ++ p).length / 3 * 3)
      = s.take (s.length / 3 * 3) ++ (e.buf ++ p).take ((e.buf ++ p).length / 3 * 3) := by
    rw [hK]
    conv_lhs => rw [hall]
    rw [List.take_append_eq_append_take]
    simp [List.length_take, Nat.min_eq_left hk]
  have hdrop : (s ++ p).drop ((s ++ p).length / 3 * 3)
      = (e.buf ++ p).drop ((e.buf ++ p).length / 3 * 3) := by
    rw [hK]
    conv_lhs => rw [hall]
    rw [List.drop_append_eq_append_drop]
    simp [List.length_take, Nat.min_eq_left hk]
  generalize hall' : e.buf ++ p = all at *
  generalize hk' : all.length / 3 * 3 = k at *
  have hroom : e.w.room = none := by rw [hw]
  by_cases hz : k = 0
  · refine ⟨{ e with buf := all }, ?_, herr, ?_, ?_⟩
    · unfold base64.encoder.Write
      rw [herr]
      simp only [hall', hk']
      rw [if_pos hz]
    · rw [hdrop, hz]; simp
    · rw [htake, hz]; simpa using hw
  · refine ⟨{ e with w := e.w.store (base64.Encode (all.take k)), buf := all.drop k },
      ?_, herr, ?_, ?_⟩
    · unfold base64.encoder.Write
      rw [herr]
      simp only [hall', hk']
      rw [if_neg hz]
      simp [os.File.Write, hroom]
    · rw [hdrop]
    · rw [htake, base64.Encode_append _ _ hk3]
      simp only [hw, os.File.store]
      simp

theorem base64.encoder_holds_Close (e : base64.encoder) (s : Bytes) (h : e.holds s) :
    e.Close.2 = none ∧
    e.Close.1.w = { data := base64.Encode s, off := (base64.Encode s).length } := by
  obtain ⟨herr, hbuf, hw⟩ := h
  have hk : s.length / 3 * 3 ≤ s.length := Nat.div_mul_le_self _ _
  have hk3 : (s.take (s.length / 3 * 3)).length % 3 = 0 := by
    rw [List.length_take, Nat.min_eq_left hk]; omega
  have hE : base64.Encode s
      = base64.Encode (s.take (s.length / 3 * 3)) ++ base64.Encode e.buf := by
    rw [hbuf, ← base64.Encode_append _ _ hk3, List.take_append_drop]
  by_cases hb : e.buf = []
  · rw [hb] at hE
    simp only [base64.Encode, List.append_nil] at hE
    simp [base64.encoder.Close, hb, herr, hw, hE]
  · have hroom : e.w.room = none := by rw [hw]
    simp [base64.encoder.Close, hb, herr, os.File.Write, hroom, hw, os.File.store, hE]

theorem gzip.flushed_append (c : Compressor) : ∀ (p x q : Bytes),
    gzip.flushed c x (p ++ q) = gzip.flushed c x p ++ gzip.flushed c (x ++ p) q := by
  intro p
  induction p with
  | nil => intro x q; simp [gzip.flushed]
  | cons b p ih => intro x q; simp [gzip.flushed, ih]

theorem gzip.send_holds (w : base64.encoder) (s out : Bytes) (h : w.holds s) :
    ∃ w1, gzip.send w out = (w1, none) ∧ w1.holds (s ++ out) := by
  by_cases ho : out = []
  · exact ⟨w, by simp [gzip.send, ho], by simpa [ho] using h⟩
  · obtain ⟨w1, hw, h1⟩ := base64.encoder_holds_Write w s out h
    exact ⟨w1, by simp [gzip.send, ho, hw], h1⟩

theorem gzip.holds_fresh (C : Codec) :
    (gzip.NewWriter C (base64.NewEncoder os.CreateTemp)).holds [] := by
  refine ⟨rfl, rfl, rfl, fun _ => rfl, ?_⟩
  simpa [gzip.NewWriter] using base64.encoder_holds_fresh

theorem gzip.holds_Write (z : gzip.Writer) (x p : Bytes) (h : z.holds x) :
    ∃ z1, z.Write p = (z1, p.length, none) ∧ z1.holds (x ++ p) ∧
      z1.compressor = z.compressor := by
  obtain ⟨herr, hcl, hbuf, hx, hw⟩ := h
  subst hbuf
  cases hh : z.wroteHeader with
  | true =>
    rw [hh] at hw
    simp only [if_true] at hw
    obtain ⟨w2, hs2, h2⟩ := gzip.send_holds z.w _ (gzip.flushed z.compressor z.buf p) hw
    refine ⟨{ z with w := w2, wroteHeader := true, buf := z.buf ++ p }, ?_,
      ⟨herr, hcl, rfl, by simp, ?_⟩, rfl⟩
    · simp [gzip.Writer.Write, herr, hh, hcl, hs2]
    · simp only [if_true]
      rw [gzip.flushed_append, ← List.append_assoc, List.nil_append]
      exact h2
  | false =>
    rw [hh] at hw
    simp only [Bool.false_eq_true, if_false] at hw
    have hx0 : z.buf = [] := hx hh
    obtain ⟨w1, hs1, h1⟩ := gzip.send_holds z.w [] gzip.header hw
    obtain ⟨w2, hs2, h2⟩ := gzip.send_holds w1 _ (gzip.flushed z.compressor z.buf p) h1
    refine ⟨{ z with w := w2, wroteHeader := true, buf := z.buf ++ p }, ?_,
      ⟨herr, hcl, rfl, by simp, ?_⟩, rfl⟩
    · simp [gzip.Writer.Write, herr, hh, hcl, hs1, hs2]
    · simp only [if_true]
      rw [hx0] at h2 ⊢
      simpa using h2

theorem gzip.holds_Close (z : gzip.Writer) (x : Bytes) (h : z.holds x) :
    ∃ z1, z.Close = (z1, none) ∧
      z1.w.holds (gzip.header ++ gzip.flushed z.compressor [] x ++ z.compressor.finish x) := by
  obtain ⟨herr, hcl, hbuf, hx, hw⟩ := h
  subst hbuf
  cases hh : z.wroteHeader with
  | true =>
    rw [hh] at hw
    simp only [if_true] at hw
    obtain ⟨w2, hs2, h2⟩ := gzip.send_holds z.w _ (z.compressor.finish z.buf) hw
    refine ⟨{ z with w := w2, wroteHeader := true, closed := true, err := none }, ?_, ?_⟩
    · simp [gzip.Writer.Close, herr, hh, hcl, hs2]
    · exact h2
  | false =>
    rw [hh] at hw
    simp only [Bool.false_eq_true, if_false] at hw
    have hx0 : z.buf = [] := hx hh
    obtain ⟨w1, hs1, h1⟩ := gzip.send_holds z.w [] gzip.header hw
    obtain ⟨w2, hs2, h2⟩ := gzip.send_holds w1 _ (z.compressor.finish z.buf) h1
    refine ⟨{ z with w := w2, wroteHeader := true, closed := true, err := none }, ?_, ?_⟩
    · simp [gzip.Writer.Close, herr, hh, hcl, hs1, hs2]
    · rw [hx0] at h2 ⊢
      simpa [gzip.flushed] using h2

/-! ### Writing one entry, and the loop of generate -/

section generic
variable {σ : Type} [GoWriter σ]

theorem tarx.WriteFileToArchive_ok (C : Codec) (tw tw1 : tar.Writer σ) (hdr : tar.Header)
    (r : io.Reader) (out : Bytes) (h : tarx.WriteFileToArchive C tw hdr r = (tw1, none, out)) :
    out = r.bytes ∧ tw1.err = none ∧ r.bytes.length ≤ tar.entrySize (tar.normalize hdr) ∧
      tw1.nb = tar.entrySize (tar.normalize hdr) - r.bytes.length ∧ r.last = none := by
  unfold tarx.WriteFileToArchive at h
  split at h
  · simp [errorsx.Wrap] at h
  · rename_i twa hwh
    have hA := tar.WriteHeader_ok C tw twa hdr hwh
    split at h
    · simp [errorsx.Wrap] at h
    · rename_i twb n pulled hc
      simp only [Prod.mk.injEq, true_and] at h
      obtain ⟨h1, h2⟩ := h
      subst h1
      subst h2
      have hB := io.Copy_ok r twa twb n pulled hA.1 hc
      rw [hA.2.1] at hB
      exact hB

theorem tarx.WriteFileToArchive_too_long (C : Codec) (tw : tar.Writer σ) (hdr : tar.Header)
    (r : io.Reader) (hsize : 0 ≤ hdr.Size) (hlong : (r.bytes.length : Int) > hdr.Size) :
    (tarx.WriteFileToArchive C tw hdr r).2.1 ≠ none := by
  unfold tarx.WriteFileToArchive
  split
  · simp [errorsx.Wrap]
  · rename_i twa hwh
    have hA := tar.WriteHeader_ok C tw twa hdr hwh
    have hlen : r.bytes.length > twa.nb := by
      rw [hA.2.1]
      unfold tar.entrySize
      have hs : (tar.normalize hdr).Size = hdr.Size := rfl
      split
      · omega
      · rw [hs]; omega
    have hB := io.Copy_too_long r twa hA.1 hlen
    split
    · simp [errorsx.Wrap]
    · rename_i hc
      rw [hc] at hB
      simp at hB

end generic

theorem io.chunksOf_flatten (n : Nat) (hn : 0 < n) :
    ∀ (fuel : Nat) (b : Bytes), b.length ≤ fuel → (io.chunksOf n fuel b).flatten = b := by
  intro fuel
  induction fuel with
  | zero =>
    intro b hb
    have : b = [] := List.length_eq_zero.mp (by omega)
    simp [io.chunksOf, this]
  | succ fuel ih =>
    intro b hb
    unfold io.chunksOf
    split
    · rename_i h; simp [h]
    · rename_i h
      have hpos : 0 < b.length := List.length_pos.mpr h
      have := ih (b.drop n) (by simp only [List.length_drop]; omega)
      simp [this]

theorem io.TeeReader_bytes (b : Bytes) : (io.TeeReader b).bytes = b := by
  simp only [io.TeeReader, io.Reader.bytes]
  exact io.chunksOf_flatten io.bufSize (by decide) b.length b (le_refl _)

theorem provider.generateLoop_ok (C : Codec) (ts : tar.Time) :
    ∀ (sources sources1 : List SourceModel) (tw tw1 : Layers) (digest digest1 : Bytes),
      generateLoop C ts sources tw digest = (none, sources1, tw1, digest1) →
      sources1 = sources.map SourceModel.digested ∧ digest1 = digest ++ contents sources ∧
        ∀ v ∈ sources, (base64.DecodeString v.Base64.ValueString).2 = none := by
  intro sources
  induction sources with
  | nil =>
    intro sources1 tw tw1 digest digest1 h
    simp only [generateLoop, Prod.mk.injEq, true_and] at h
    obtain ⟨h1, _, h3⟩ := h
    simp [← h1, ← h3, contents]
  | cons v vs ih =>
    intro sources1 tw tw1 digest digest1 h
    unfold generateLoop at h
    split at h
    · simp at h
    · rename_i decoded hdec
      dsimp only at h
      split at h
      · simp at h
      · rename_i twa localdigest hw
        have hW := tarx.WriteFileToArchive_ok C tw twa _ _ localdigest hw
        rw [io.TeeReader_bytes] at hW
        have hl : localdigest = decoded := hW.1
        subst hl
        generalize hrec : generateLoop C ts vs twa (digest ++ localdigest) = res at h
        obtain ⟨err, vs1, tw2, digest2⟩ := res
        simp only [Prod.mk.injEq] at h
        obtain ⟨h1, h2, h3, h4⟩ := h
        subst h1
        have hI := ih vs1 twa tw2 _ digest2 hrec
        have hd : v.decoded = localdigest := by
          simp [SourceModel.decoded, hdec]
        refine ⟨?_, ?_, ?_⟩
        · rw [← h2, hI.1]
          simp [SourceModel.digested, hd]
        · rw [← h4, hI.2.1]
          simp [contents, hd]
        · intro x hx
          rcases List.mem_cons.mp hx with hx | hx
          · subst hx; simp [hdec]
          · exact hI.2.2 x hx

/-! ### Digests -/

theorem provider.generate_ok (C : Codec) (ts : tar.Time) (dst : os.File)
    (data : ArchiveResourceModel) (hok : (generate C ts dst data).err = none) :
    (generate C ts dst data).data.Sources = data.Sources.map SourceModel.digested ∧
    (generate C ts dst data).hashed = contents data.Sources ∧
    (generate C ts dst data).data.Digest
      = .known (hex.EncodeToString (sha256.Sum256 (contents data.Sources))) ∧
    ∀ v ∈ data.Sources, (base64.DecodeString v.Base64.ValueString).2 = none := by
  generalize hl : generateLoop C ts data.Sources
      (tar.NewWriter (gzip.NewWriter C (base64.NewEncoder dst))) [] = res
  obtain ⟨err, sources, tw, digest⟩ := res
  cases err with
  | some e =>
    exfalso
    simp [generate, hl] at hok
  | none =>
    have hg := generate_of_loop_ok C ts dst data sources tw digest hl
    have hL := generateLoop_ok C ts data.Sources sources _ tw [] digest hl
    simp only [List.nil_append] at hL
    refine ⟨?_, ?_, ?_, hL.2.2⟩
    · rw [hg.2.2.2.1, hL.1]
    · rw [hg.2.2.1, hL.2.1]
    · rw [hg.2.2.2.2, hL.2.1]

theorem sha256.be_length (n x : Nat) : (sha256.be n x).length = n := by
  simp [sha256.be]

theorem sha256.Sum256_length (m : Bytes) : (sha256.Sum256 m).length = 32 := by
  simp [sha256.Sum256, sha256.be_length]

theorem hex.EncodeToString_length (b : Bytes) : (hex.EncodeToString b).length = 2 * b.length := by
  induction b with
  | nil => simp [hex.EncodeToString]
  | cons x xs ih =>
    simp only [hex.EncodeToString, List.flatMap_cons, List.length_append, List.length_cons,
      List.length_nil] at ih ⊢
    omega

theorem hex.EncodeToString_lower (b : Bytes) :
    ∀ c ∈ hex.EncodeToString b, c ∈ ascii "0123456789abcdef" := by
  have key : ∀ i, i < 16 → hex.hextable.getD i 0 ∈ ascii "0123456789abcdef" := by decide
  intro c hc
  simp only [hex.EncodeToString, List.mem_flatMap, List.mem_cons, List.mem_singleton,
    List.not_mem_nil, or_false] at hc
  obtain ⟨v, _, hv⟩ := hc
  rcases hv with hv | hv
  · rw [hv]; exact key _ (Nat.mod_lt _ (by decide))
  · rw [hv]; exact key _ (Nat.mod_lt _ (by decide))

/-- C1: when generate succeeds every base64 field has decoded, and each source carries as
Digest the lowercase hexadecimal text, 64 characters long, of the SHA-256 of its decoded
raw bytes (not of the base64 text); the content "what's up" gives the digest of those
nine bytes. -/
theorem C1_entry_digest_of_raw_bytes (C : Codec) (ts : tar.Time) (dst : os.File)
    (data : ArchiveResourceModel) (hok : (generate C ts dst data).err = none) :
    (∀ v ∈ data.Sources, (base64.DecodeString v.Base64.ValueString).2 = none) ∧
    (generate C ts dst data).data.Sources = data.Sources.map (fun v =>
      { v with Digest := .known (hex.EncodeToString
          (sha256.Sum256 (base64.DecodeString v.Base64.ValueString).1)) }) ∧
    (∀ raw : Bytes, (hex.EncodeToString (sha256.Sum256 raw)).length = 64 ∧
      ∀ c ∈ hex.EncodeToString (sha256.Sum256 raw), c ∈ ascii "0123456789abcdef") ∧
    (base64.DecodeString (ascii "d2hhdCdzIHVw") = (ascii "what's up", none) ∧
      hex.EncodeToString (sha256.Sum256 (ascii "what's up"))
        = ascii "276f0597e3131667e652ed3675849c5aecad999abc93909ae486e571cccbc8f1") := by
  have h := generate_ok C ts dst data hok
  refine ⟨h.2.2.2, h.1, ?_, by decide, by decide⟩
  intro raw
  refine ⟨?_, hex.EncodeToString_lower _⟩
  rw [hex.EncodeToString_length, sha256.Sum256_length]

/-- The scenario of C1 run through generate. -/
theorem C1_witness :
    (generate plainCodec {} os.CreateTemp whatsUp).err = none ∧
    (generate plainCodec {} os.CreateTemp whatsUp).data.Sources.map (·.Digest)
      = [.known (ascii "276f0597e3131667e652ed3675849c5aecad999abc93909ae486e571cccbc8f1")] := by
  have hok : (generate plainCodec {} os.CreateTemp whatsUp).err = none := by decide!
  have h := (C1_entry_digest_of_raw_bytes plainCodec {} os.CreateTemp whatsUp hok).2.1
  refine ⟨hok, ?_⟩
  rw [h]
  decide!

theorem provider.contents_eq_of_base64 (s1 s2 : List SourceModel)
    (h : s1.map (·.Base64) = s2.map (·.Base64)) : contents s1 = contents s2 := by
  have key : ∀ s : List SourceModel, contents s
      = ((s.map (·.Base64)).map fun b => (base64.DecodeString b.ValueString).1).flatten := by
    intro s
    simp only [contents, List.map_map]
    rfl
  rw [key s1, key s2, h]

/-- C2, as amended: the bytes written to the aggregate hash are the decoded contents of the
sources, one after the other in list order, and data.Digest is the hexadecimal SHA-256 of
those bytes; no header byte is hashed, so two runs over sources with the same base64
fields in the same order feed the same bytes and store the same digest, whatever the
locations, perms, timestamps and destinations. -/
theorem C2_aggregate_digest_of_contents (C : Codec) (ts1 ts2 : tar.Time) (dst1 dst2 : os.File)
    (d1 d2 : ArchiveResourceModel)
    (h1 : (generate C ts1 dst1 d1).err = none) (h2 : (generate C ts2 dst2 d2).err = none)
    (hsame : d1.Sources.map (·.Base64) = d2.Sources.map (·.Base64)) :
    (generate C ts1 dst1 d1).hashed
        = (d1.Sources.map fun v => (base64.DecodeString v.Base64.ValueString).1).flatten ∧
    (generate C ts1 dst1 d1).data.Digest
        = .known (hex.EncodeToString (sha256.Sum256 (generate C ts1 dst1 d1).hashed)) ∧
    (generate C ts1 dst1 d1).hashed = (generate C ts2 dst2 d2).hashed ∧
    (generate C ts1 dst1 d1).data.Digest = (generate C ts2 dst2 d2).data.Digest := by
  have g1 := generate_ok C ts1 dst1 d1 h1
  have g2 := generate_ok C ts2 dst2 d2 h2
  have hc := contents_eq_of_base64 _ _ hsame
  refine ⟨?_, ?_, ?_, ?_⟩
  · rw [g1.2.1]; rfl
  · rw [g1.2.2.1, g1.2.1]
  · rw [g1.2.1, g2.2.1, hc]
  · rw [g1.2.2.1, g2.2.2.1, hc]

/-- C2 as stated fails: two single-source lists with the same content, at a.txt and at
b.txt, feed the same bytes to the aggregate hash and get the same digest, although the
tar streams differ. -/
theorem C2_counterexample :
    (generate plainCodec {} os.CreateTemp { Sources := [src "YWI=" "a.txt"] }).err = none ∧
    (generate plainCodec {} os.CreateTemp { Sources := [src "YWI=" "b.txt"] }).err = none ∧
    (src "YWI=" "a.txt").Base64 = (src "YWI=" "b.txt").Base64 ∧
    (src "YWI=" "a.txt").Location ≠ (src "YWI=" "b.txt").Location ∧
    ¬ ((generate plainCodec {} os.CreateTemp { Sources := [src "YWI=" "a.txt"] }).hashed
        ≠ (generate plainCodec {} os.CreateTemp { Sources := [src "YWI=" "b.txt"] }).hashed) ∧
    (generate plainCodec {} os.CreateTemp { Sources := [src "YWI=" "a.txt"] }).data.Digest
      = (generate plainCodec {} os.CreateTemp { Sources := [src "YWI=" "b.txt"] }).data.Digest ∧
    (generate plainCodec {} os.CreateTemp { Sources := [src "YWI=" "a.txt"] }).tw.w.buf
      ≠ (generate plainCodec {} os.CreateTemp { Sources := [src "YWI=" "b.txt"] }).tw.w.buf := by
  decide!

/-- The amended C2 on one content packed at two locations, with different perms and
timestamps. -/
theorem C2_witness :
    (generate plainCodec {} os.CreateTemp { Sources := [src "YWI=" "a.txt"] }).hashed = ascii "ab" ∧
    (generate plainCodec {} os.CreateTemp { Sources := [src "YWI=" "a.txt"] }).data.Digest
      = (generate plainCodec ⟨7⟩ os.CreateTemp
          { Sources := [{ src "YWI=" "b.txt" with Perm := .known 0o644 }] }).data.Digest := by
  have h := C2_aggregate_digest_of_contents plainCodec {} ⟨7⟩ os.CreateTemp os.CreateTemp
    { Sources := [src "YWI=" "a.txt"] }
    { Sources := [{ src "YWI=" "b.txt" with Perm := .known 0o644 }] }
    (by decide!) (by decide!) (by decide!)
  refine ⟨?_, h.2.2.2⟩
  rw [h.1]
  decide!

/-- C3, as amended: when the sources of two successful runs are reorderings of each other,
the sources come out as reorderings of each other with their digests (each per-entry
digest travels with its entry), each run feeds the aggregate hash the decoded contents in
its own packing order, and runs that feed the same bytes store the same aggregate
digest. -/
theorem C3_order_and_digests (C : Codec) (ts1 ts2 : tar.Time) (dst1 dst2 : os.File)
    (d1 d2 : ArchiveResourceModel)
    (h1 : (generate C ts1 dst1 d1).err = none) (h2 : (generate C ts2 dst2 d2).err = none)
    (hperm : d1.Sources.Perm d2.Sources) :
    (generate C ts1 dst1 d1).data.Sources.Perm (generate C ts2 dst2 d2).data.Sources ∧
    ((generate C ts1 dst1 d1).data.Sources.map (·.Digest)).Perm
      ((generate C ts2 dst2 d2).data.Sources.map (·.Digest)) ∧
    (generate C ts1 dst1 d1).hashed
        = (d1.Sources.map fun v => (base64.DecodeString v.Base64.ValueString).1).flatten ∧
    (generate C ts2 dst2 d2).hashed
        = (d2.Sources.map fun v => (base64.DecodeString v.Base64.ValueString).1).flatten ∧
    ((generate C ts1 dst1 d1).hashed = (generate C ts2 dst2 d2).hashed →
      (generate C ts1 dst1 d1).data.Digest = (generate C ts2 dst2 d2).data.Digest) := by
  have g1 := generate_ok C ts1 dst1 d1 h1
  have g2 := generate_ok C ts2 dst2 d2 h2
  have hp : (generate C ts1 dst1 d1).data.Sources.Perm (generate C ts2 dst2 d2).data.Sources := by
    rw [g1.1, g2.1]
    exact hperm.map _
  refine ⟨hp, hp.map _, ?_, ?_, ?_⟩
  · rw [g1.2.1]; rfl
  · rw [g2.2.1]; rfl
  · intro h
    rw [g1.2.2.1, g2.2.2.1, ← g1.2.1, ← g2.2.1, h]

/-- C3 as stated fails on its concrete case: "ab" then "abab" and "abab" then "ab" are
two orderings that both feed "ababab" to the aggregate hash and get the same digest. -/
theorem C3_counterexample :
    [src "YWI=" "one", src "YWJhYg==" "two"] ≠ [src "YWJhYg==" "two", src "YWI=" "one"] ∧
    (base64.DecodeString (ascii "YWI=")).1 = ascii "ab" ∧
    (base64.DecodeString (ascii "YWJhYg==")).1 = ascii "abab" ∧
    (generate plainCodec {} os.CreateTemp
        { Sources := [src "YWI=" "one", src "YWJhYg==" "two"] }).err = none ∧
    (generate plainCodec {} os.CreateTemp
        { Sources := [src "YWJhYg==" "two", src "YWI=" "one"] }).err = none ∧
    (generate plainCodec {} os.CreateTemp
        { Sources := [src "YWI=" "one", src "YWJhYg==" "two"] }).hashed = ascii "ababab" ∧
    (generate plainCodec {} os.CreateTemp
        { Sources := [src "YWJhYg==" "two", src "YWI=" "one"] }).hashed = ascii "ababab" ∧
    (generate plainCodec {} os.CreateTemp
        { Sources := [src "YWI=" "one", src "YWJhYg==" "two"] }).data.Digest
      = (generate plainCodec {} os.CreateTemp
        { Sources := [src "YWJhYg==" "two", src "YWI=" "one"] }).data.Digest := by
  decide!

/-- The amended C3 on "ab" and "cd": the two orders feed "abcd" and "cdab", and the
per-entry digests are the same two digests. -/
theorem C3_witness :
    (generate plainCodec {} os.CreateTemp
        { Sources := [src "YWI=" "one", src "Y2Q=" "two"] }).hashed = ascii "abcd" ∧
    (generate plainCodec {} os.CreateTemp
        { Sources := [src "Y2Q=" "two", src "YWI=" "one"] }).hashed = ascii "cdab" ∧
    ((generate plainCodec {} os.CreateTemp
        { Sources := [src "YWI=" "one", src "Y2Q=" "two"] }).data.Sources.map (·.Digest)).Perm
      ((generate plainCodec {} os.CreateTemp
        { Sources := [src "Y2Q=" "two", src "YWI=" "one"] }).data.Sources.map (·.Digest)) := by
  have h := C3_order_and_digests plainCodec {} {} os.CreateTemp os.CreateTemp
    { Sources := [src "YWI=" "one", src "Y2Q=" "two"] }
    { Sources := [src "Y2Q=" "two", src "YWI=" "one"] }
    (by decide!) (by decide!) (List.Perm.swap _ _ _)
  refine ⟨?_, ?_, h.2.1⟩
  · rw [h.2.2.1]; decide!
  · rw [h.2.2.2.1]; decide!

/-! ### The header mode -/

/-- C4 fails on the code: NewHeader drops its mode argument. Whatever mode is passed, and
so whatever perm a source carries, the header has mode 0600; with mode 0644 the header
does not carry 0644. -/
theorem C4_NewHeader_mode (filename : Bytes) (ts : tar.Time) (size mode : Int)
    (v : SourceModel) :
    (tarx.NewHeader filename ts size mode).Mode = 0o600 ∧
    (tarx.NewHeader v.Location.ValueString ts size
        (if !v.Perm.IsNull then v.Perm.ValueInt32 else 0o600)).Mode = 0o600 ∧
    (tarx.NewHeader (ascii "a") {} 0 0o644).Mode ≠ 0o644 := by
  refine ⟨rfl, rfl, by decide⟩

/-! ### The plan modifier -/

theorem base64.decodeMap_enc : ∀ v, v < 64 → base64.decodeMap (base64.enc v) = v := by
  decide

theorem base64.decodeMap_padChar : base64.decodeMap base64.padChar = 255 := by decide

theorem base64.decodeLoop_quantum (len si : Nat) (rest acc : Bytes) (d0 d1 d2 d3 : Nat)
    (h0 : d0 < 64) (h1 : d1 < 64) (h2 : d2 < 64) (h3 : d3 < 64) :
    base64.decodeLoop len (base64.enc d0 :: base64.enc d1 :: base64.enc d2 :: base64.enc d3 :: rest)
        si [] acc
      = base64.decodeLoop len rest (si + 1 + 1 + 1 + 1) [] (acc ++ base64.quantumBytes [d0, d1, d2, d3]) := by
  have e0 := base64.decodeMap_enc d0 h0
  have e1 := base64.decodeMap_enc d1 h1
  have e2 := base64.decodeMap_enc d2 h2
  have e3 := base64.decodeMap_enc d3 h3
  have n0 : d0 ≠ 255 := by omega
  have n1 : d1 ≠ 255 := by omega
  have n2 : d2 ≠ 255 := by omega
  have n3 : d3 ≠ 255 := by omega
  simp [base64.decodeLoop, e0, e1, e2, e3, n0, n1, n2, n3]

theorem base64.decodeLoop_pad2 (len si : Nat) (acc : Bytes) (d0 d1 : Nat)
    (h0 : d0 < 64) (h1 : d1 < 64) :
    base64.decodeLoop len [base64.enc d0, base64.enc d1, base64.padChar, base64.padChar] si [] acc
      = (acc ++ base64.quantumBytes [d0, d1], none) := by
  have e0 := base64.decodeMap_enc d0 h0
  have e1 := base64.decodeMap_enc d1 h1
  have n0 : d0 ≠ 255 := by omega
  have n1 : d1 ≠ 255 := by omega
  have hp : base64.padChar = 61 := rfl
  have hd : base64.decodeMap 61 = 255 := by decide
  simp [base64.decodeLoop, e0, e1, n0, n1, hd, base64.skipNewlines, hp]

theorem base64.decodeLoop_pad1 (len si : Nat) (acc : Bytes) (d0 d1 d2 : Nat)
    (h0 : d0 < 64) (h1 : d1 < 64) (h2 : d2 < 64) :
    base64.decodeLoop len [base64.enc d0, base64.enc d1, base64.enc d2, base64.padChar] si [] acc
      = (acc ++ base64.quantumBytes [d0, d1, d2], none) := by
  have e0 := base64.decodeMap_enc d0 h0
  have e1 := base64.decodeMap_enc d1 h1
  have e2 := base64.decodeMap_enc d2 h2
  have n0 : d0 ≠ 255 := by omega
  have n1 : d1 ≠ 255 := by omega
  have n2 : d2 ≠ 255 := by omega
  have hp : base64.padChar = 61 := rfl
  have hd : base64.decodeMap 61 = 255 := by decide
  simp [base64.decodeLoop, e0, e1, e2, n0, n1, n2, hd, base64.skipNewlines, hp]

theorem base64.quantumBytes_three (a b c : Nat) (ha : a < 256) (hb : b < 256) (hc : c < 256) :
    base64.quantumBytes [a / 4, a % 4 * 16 + b / 16, b % 16 * 4 + c / 64, c % 64] = [a, b, c] := by
  simp only [base64.quantumBytes, List.getD_cons_zero, List.getD_cons_succ, List.length_cons,
    List.length_nil]
  simp only [List.take, List.cons.injEq, and_true]
  refine ⟨?_, ?_, ?_⟩ <;> omega

theorem base64.quantumBytes_two (a b : Nat) (ha : a < 256) (hb : b < 256) :
    base64.quantumBytes [a / 4, a % 4 * 16 + b / 16, b % 16 * 4] = [a, b] := by
  simp only [base64.quantumBytes, List.getD_cons_zero, List.getD_cons_succ, List.length_cons,
    List.length_nil, List.getD_nil]
  simp only [List.take, List.cons.injEq, and_true]
  refine ⟨?_, ?_⟩ <;> omega

theorem base64.quantumBytes_one (a : Nat) (ha : a < 256) :
    base64.quantumBytes [a / 4, a % 4 * 16] = [a] := by
  simp only [base64.quantumBytes, List.getD_cons_zero, List.getD_cons_succ, List.length_cons,
    List.length_nil, List.getD_nil]
  simp only [List.take, List.cons.injEq, and_true]
  omega

theorem base64.decodeLoop_Encode (len : Nat) : ∀ (raw : Bytes) (si : Nat) (acc : Bytes),
    (∀ b ∈ raw, b < 256) →
    base64.decodeLoop len (base64.Encode raw) si [] acc = (acc ++ raw, none)
  | [], si, acc, _ => by simp [base64.Encode, base64.decodeLoop]
  | [a], si, acc, h => by
    have ha : a < 256 := h a (by simp)
    simp only [base64.Encode, Nat.mod_eq_of_lt ha]
    rw [base64.decodeLoop_pad2 _ _ _ _ _ (by omega) (by omega), base64.quantumBytes_one a ha]
  | [a, b], si, acc, h => by
    have ha : a < 256 := h a (by simp)
    have hb : b < 256 := h b (by simp)
    simp only [base64.Encode, Nat.mod_eq_of_lt ha, Nat.mod_eq_of_lt hb]
    rw [base64.decodeLoop_pad1 _ _ _ _ _ _ (by omega) (by omega) (by omega),
      base64.quantumBytes_two a b ha hb]
  | a :: b :: c :: rest, si, acc, h => by
    have ha : a < 256 := h a (by simp)
    have hb : b < 256 := h b (by simp)
    have hc : c < 256 := h c (by simp)
    have ih := base64.decodeLoop_Encode len rest (si + 1 + 1 + 1 + 1) (acc ++ [a, b, c])
      (fun x hx => h x (by simp [hx]))
    simp only [base64.Encode, Nat.mod_eq_of_lt ha, Nat.mod_eq_of_lt hb, Nat.mod_eq_of_lt hc,
      List.cons_append, List.nil_append]
    rw [base64.decodeLoop_quantum _ _ _ _ _ _ _ _ (by omega) (by omega) (by omega) (by omega),
      base64.quantumBytes_three a b c ha hb hc, ih]
    simp

/-- Every canonical encoding is accepted and decodes to the bytes encoded. -/
theorem base64.DecodeString_Encode (raw : Bytes) (h : ∀ b ∈ raw, b < 256) :
    base64.DecodeString (base64.Encode raw) = (raw, none) := by
  simpa [base64.DecodeString] using base64.decodeLoop_Encode _ raw 0 [] h

/-- C5: for the base64 attribute holding the string `s`, when StdEncoding does not decode
`s` the plan modifier appends one error diagnostic on the attribute and leaves the planned
value as it was; when it decodes, no diagnostic is added and the planned value is the
hexadecimal SHA-256 of the decoded bytes. Every padded encoding of raw bytes decodes, and
its planned value is the digest of those raw bytes. -/
theorem C5_plan_digest_or_diagnostic (m : useSHA256OfAttribute) (req : StringRequest)
    (resp : StringResponse) (s : Bytes) (hs : GetAttribute req m.attrname = .known s) :
    (∀ e, (base64.DecodeString s).2 = some e →
      (m.PlanModifyString req resp).HasError = true ∧
      (m.PlanModifyString req resp).Diagnostics = resp.Diagnostics ++
        [{ path := m.attrname, summary := "failed to hash base64", detail := e }] ∧
      (m.PlanModifyString req resp).PlanValue = resp.PlanValue) ∧
    ((base64.DecodeString s).2 = none →
      (m.PlanModifyString req resp).Diagnostics = resp.Diagnostics ∧
      (m.PlanModifyString req resp).PlanValue
        = .known (hex.EncodeToString (sha256.Sum256 (base64.DecodeString s).1))) ∧
    (∀ raw : Bytes, (∀ b ∈ raw, b < 256) → s = base64.Encode raw →
      (base64.DecodeString s).2 = none ∧
      (m.PlanModifyString req resp).PlanValue
        = .known (hex.EncodeToString (sha256.Sum256 raw))) := by
  have hvalid : (base64.DecodeString s).2 = none →
      (m.PlanModifyString req resp).Diagnostics = resp.Diagnostics ∧
      (m.PlanModifyString req resp).PlanValue
        = .known (hex.EncodeToString (sha256.Sum256 (base64.DecodeString s).1)) := by
    intro hn
    simp only [useSHA256OfAttribute.PlanModifyString, hs, TfValue.ValueString]
    split
    · rename_i err hd
      rw [hd] at hn
      simp at hn
    · rename_i dec hd
      simp [hd]
  refine ⟨?_, hvalid, ?_⟩
  rotate_left
  · intro raw hraw hsr
    have hrt := base64.DecodeString_Encode raw hraw
    rw [← hsr] at hrt
    have h2 := hvalid (by rw [hrt])
    refine ⟨by rw [hrt], ?_⟩
    rw [h2.2, hrt]
  · intro e he
    simp only [useSHA256OfAttribute.PlanModifyString, hs, TfValue.ValueString]
    split
    · rename_i err hd
      rw [hd] at he
      simp only [Option.some.injEq] at he
      subst he
      simp [StringResponse.HasError]
    · rename_i hd
      rw [hd] at he
      simp at he

/-- C5 on the malformed "!!!" and on the base64 text of "what's up". -/
theorem C5_witness :
    base64.DecodeString (ascii "!!!") = ([], some (.CorruptInputError 0)) ∧
    (UseSHA256OfAttribute "base64").PlanModifyString
        { Plan := fun _ => some (.known (ascii "!!!")) } { PlanValue := .unknown }
      = { PlanValue := .unknown,
          Diagnostics := [{ path := "base64", summary := "failed to hash base64",
                            detail := .CorruptInputError 0 }] } ∧
    ((UseSHA256OfAttribute "base64").PlanModifyString
        { Plan := fun _ => some (.known (ascii "d2hhdCdzIHVw")) } { PlanValue := .unknown }).PlanValue
      = .known (ascii "276f0597e3131667e652ed3675849c5aecad999abc93909ae486e571cccbc8f1") := by
  have h1 := (C5_plan_digest_or_diagnostic (UseSHA256OfAttribute "base64")
    { Plan := fun _ => some (.known (ascii "!!!")) } { PlanValue := .unknown } (ascii "!!!") rfl).1
      (.CorruptInputError 0) (by decide)
  have h2 := (C5_plan_digest_or_diagnostic (UseSHA256OfAttribute "base64")
    { Plan := fun _ => some (.known (ascii "d2hhdCdzIHVw")) } { PlanValue := .unknown }
      (ascii "d2hhdCdzIHVw") rfl).2.1 (by decide)
  refine ⟨by decide, ?_, ?_⟩
  · decide
  · rw [h2.2]
    decide!

/-! ### Inspect -/

theorem tarx.inspectBody_seeker (C : Codec) (s : os.File) :
    ∃ s2 : os.File, (tarx.inspectBody C (.seeker s)).1 = .seeker s2 ∧ s2.data = s.data ∧
      s2.seeks = s.seeks := by
  cases hr : s.readErr with
  | some e =>
    refine ⟨s, ?_, rfl, rfl⟩
    simp [tarx.inspectBody, tarx.readArchive, hr, errorsx.Wrap]
  | none =>
    refine ⟨{ s with off := s.off + min (C.read (s.data.drop s.off)).consumed (s.data.length - s.off) }, ?_, rfl, rfl⟩
    simp only [tarx.inspectBody, tarx.readArchive, hr]
    split <;> rfl

theorem tarx.Inspect_after_rewind (C : Codec) (f s1 : os.File) (h : iox.Rewind f = (s1, none)) :
    ∃ g : os.File, (tarx.Inspect C (.seeker f)).1 = .seeker g ∧ g.data = s1.data ∧
      (g.off = 0 ∨ ∃ e rest, s1.seeks = some e :: rest) ∧
      (tarx.Inspect C (.seeker f)).2.1 = (tarx.inspectBody C (.seeker s1)).2.1 := by
  obtain ⟨s2, hb, hd, hs⟩ := tarx.inspectBody_seeker C s1
  simp only [tarx.Inspect, h]
  generalize hres : tarx.inspectBody C (.seeker s1) = res at hb
  obtain ⟨r, err, log⟩ := res
  simp only at hb
  subst hb
  simp only
  refine ⟨(iox.Rewind s2).1, rfl, ?_, ?_, trivial⟩
  · simp only [iox.Rewind, os.File.SeekStart]
    split <;> simp [hd]
  · simp only [iox.Rewind, os.File.SeekStart]
    split
    · simp
    · simp
    · rename_i e rest hse
      right
      exact ⟨e, rest, by rw [← hs, hse]⟩

/-- C9, as amended: when the first seek to offset 0 fails, Inspect returns that error
without reading and without a second seek; when no seek fails, Inspect reads from offset
0 and, when it returns, the input stands at offset 0 again, whatever offset it stood at
before the call, with its bytes untouched. -/
theorem C9_inspect_rewinds_to_start (C : Codec) (f : os.File) :
    (∀ e rest, f.seeks = some e :: rest →
      tarx.Inspect C (.seeker f)
        = (.seeker { f with seeks := rest },
            some (.wrapped e "unable to seek to start of file"), [])) ∧
    ((∀ o ∈ f.seeks, o = none) →
      ∃ g : os.File, (tarx.Inspect C (.seeker f)).1 = .seeker g ∧ g.off = 0 ∧ g.data = f.data ∧
        (tarx.Inspect C (.seeker f)).2.1
          = (tarx.inspectBody C (.seeker { f with off := 0, seeks := f.seeks.tail })).2.1) := by
  constructor
  · intro e rest hse
    simp [tarx.Inspect, iox.Rewind, os.File.SeekStart, hse, errorsx.Wrap]
  · intro hall
    have hrw : iox.Rewind f = ({ f with off := 0, seeks := f.seeks.tail }, none) := by
      simp only [iox.Rewind, os.File.SeekStart]
      cases hs : f.seeks with
      | nil => simp
      | cons o rest =>
        have : o = none := hall o (by simp [hs])
        subst this
        simp
    obtain ⟨g, hg1, hg2, hg3, hg4⟩ := tarx.Inspect_after_rewind C f _ hrw
    refine ⟨g, hg1, ?_, hg2, hg4⟩
    rcases hg3 with h0 | ⟨e, rest, hse⟩
    · exact h0
    · exfalso
      have hmem : some e ∈ f.seeks := by
        have : some e ∈ f.seeks.tail := by
          simp only at hse
          rw [hse]; simp
        exact List.mem_of_mem_tail this
      have := hall _ hmem
      simp at this

/-- C9 as stated fails: an input at offset 5 is left at offset 0, not at 5. -/
theorem C9_counterexample :
    (tarx.Inspect plainCodec (.seeker { data := [31, 139, 8, 0, 0, 0, 0], off := 5 })).1
      = .seeker { data := [31, 139, 8, 0, 0, 0, 0], off := 0 } ∧
    (tarx.Input.seeker { data := [31, 139, 8, 0, 0, 0, 0], off := 0 })
      ≠ .seeker { data := [31, 139, 8, 0, 0, 0, 0], off := 5 } := by
  decide

/-- The amended C9 on an input at offset 5. -/
theorem C9_witness :
    (∀ o ∈ ({ data := [31, 139, 8, 0, 0, 0, 0], off := 5 } : os.File).seeks, o = none) ∧
    ∃ g : os.File,
      (tarx.Inspect plainCodec (.seeker { data := [31, 139, 8, 0, 0, 0, 0], off := 5 })).1
        = .seeker g ∧ g.off = 0 ∧ g.data = [31, 139, 8, 0, 0, 0, 0] := by
  obtain ⟨g, h1, h2, h3, _⟩ := (C9_inspect_rewinds_to_start plainCodec
    { data := [31, 139, 8, 0, 0, 0, 0], off := 5 }).2 (by decide)
  exact ⟨by decide, g, h1, h2, h3⟩

/-! ### Entries written to a file that takes every write -/

theorem os.Write_room_none (f : os.File) (p : Bytes) (h : f.room = none) :
    GoWriter.Write f p = (f.store p, p.length, none) ∧ (f.store p).room = none := by
  simp [GoWriter.Write, os.File.Write, h, os.File.store]

theorem tar.Flush_file (tw : tar.Writer os.File) (herr : tw.err = none) (hnb : tw.nb = 0)
    (hroom : tw.w.room = none) :
    ∃ tw1, tw.Flush = (tw1, none) ∧ tw1.err = none ∧ tw1.nb = 0 ∧ tw1.w.room = none := by
  have hw := os.Write_room_none tw.w (List.replicate tw.pad 0) hroom
  refine ⟨{ tw with w := tw.w.store (List.replicate tw.pad 0), pad := 0 }, ?_, herr, hnb, hw.2⟩
  simp only [tar.Writer.Flush, herr, hnb, hw.1]
  simp

theorem tar.WriteHeader_file (C : Codec) (tw : tar.Writer os.File) (hdr : tar.Header)
    (fm : tar.Formats) (blk : Bytes) (herr : tw.err = none) (hnb : tw.nb = 0)
    (hroom : tw.w.room = none) (hfm : tar.allowedFormats (tar.normalize hdr) = .ok fm)
    (hblk : tar.encodeHeader C (tar.normalize hdr) fm = .ok blk) :
    ∃ tw1, tw.WriteHeader C hdr = (tw1, none) ∧ tw1.err = none ∧
      tw1.nb = tar.entrySize (tar.normalize hdr) ∧ tw1.w.room = none := by
  obtain ⟨twa, ha, ha1, ha2, ha3⟩ := tar.Flush_file tw herr hnb hroom
  obtain ⟨twb, hb, hb1, hb2, hb3⟩ := tar.Flush_file twa ha1 ha2 ha3
  have hw := os.Write_room_none twb.w blk hb3
  refine ⟨{ twb with w := twb.w.store blk, nb := tar.entrySize (tar.normalize hdr),
                      pad := tar.blockPadding (tar.entrySize (tar.normalize hdr)), err := none },
    ?_, rfl, rfl, hw.2⟩
  simp only [tar.Writer.WriteHeader, ha, hfm, hblk, tar.Writer.writeRawHeader, hb, hw.1]

theorem tar.Write_file (tw : tar.Writer os.File) (b : Bytes) (herr : tw.err = none)
    (hroom : tw.w.room = none) (hlen : b.length ≤ tw.nb) :
    ∃ tw1, tw.Write b = (tw1, b.length, none) ∧ tw1.err = none ∧ tw1.nb = tw.nb - b.length ∧
      tw1.w.room = none := by
  have hw := os.Write_room_none tw.w b hroom
  have hno : ¬ b.length > tw.nb := by omega
  by_cases hb : b.length > 0
  · refine ⟨{ tw with w := tw.w.store b, nb := tw.nb - b.length }, ?_, herr, rfl, hw.2⟩
    simp only [tar.Writer.Write, herr, hno, decide_False, Bool.false_eq_true, if_false, hb,
      if_true, hw.1]
  · have hb0 : b.length = 0 := by omega
    refine ⟨tw, ?_, herr, by omega, hroom⟩
    have hlt : ¬ 0 < b.length := by omega
    simp only [tar.Writer.Write, herr, hno, decide_False, Bool.false_eq_true, if_false]
    rw [if_neg (by simpa using hb0)]
    cases tw
    simp_all

theorem io.copyLoop_file (chunks : List Bytes) :
    ∀ (tw : tar.Writer os.File) (written : Nat) (pulled : Bytes), tw.err = none →
      tw.w.room = none → chunks.flatten.length ≤ tw.nb →
      ∃ tw1 n, io.copyLoop chunks none tw written pulled = (tw1, n, none, pulled ++ chunks.flatten) ∧
        tw1.err = none ∧ tw1.nb = tw.nb - chunks.flatten.length ∧ tw1.w.room = none := by
  induction chunks with
  | nil =>
    intro tw written pulled herr hroom hlen
    exact ⟨tw, written, by simp [io.copyLoop], herr, by simp, hroom⟩
  | cons c cs ih =>
    intro tw written pulled herr hroom hlen
    simp only [List.flatten_cons, List.length_append] at hlen
    unfold io.copyLoop
    split
    · rename_i hc
      have hc0 : c = [] := List.length_eq_zero.mp hc
      subst hc0
      simpa using ih tw written pulled herr hroom (by simpa using hlen)
    · obtain ⟨twa, hw, ha1, ha2, ha3⟩ := tar.Write_file tw c herr hroom (by omega)
      obtain ⟨twb, n, hl, hb1, hb2, hb3⟩ :=
        ih twa (written + c.length) (pulled ++ c) ha1 ha3 (by omega)
      refine ⟨twb, n, ?_, hb1, ?_, hb3⟩
      · simp only [hw, ne_eq, not_true_eq_false, if_false, hl]
        simp
      · simp only [List.flatten_cons, List.length_append]; omega

theorem io.Copy_file (r : io.Reader) (tw : tar.Writer os.File) (herr : tw.err = none)
    (hroom : tw.w.room = none) (hlen : r.bytes.length ≤ tw.nb) (hlast : r.last = none) :
    ∃ tw1 n, io.Copy tw r = (tw1, n, none, r.bytes) ∧ tw1.err = none ∧
      tw1.nb = tw.nb - r.bytes.length ∧ tw1.w.room = none := by
  cases r with
  | mem r =>
    simp only [io.Reader.bytes] at hlen ⊢
    by_cases hi : r.i ≥ r.s.length
    · have : r.s.drop r.i = [] := List.drop_eq_nil_of_le hi
      exact ⟨tw, 0, by simp [io.Copy, hi, this], herr, by simp [this], hroom⟩
    · obtain ⟨twa, hw, ha1, ha2, ha3⟩ := tar.Write_file tw _ herr hroom hlen
      refine ⟨twa, (r.s.drop r.i).length, ?_, ha1, ha2, ha3⟩
      simp only [io.Copy, hi, if_false, hw]
      simp
  | stream chunks last =>
    simp only [io.Reader.last] at hlast
    subst hlast
    simp only [io.Reader.bytes] at hlen ⊢
    obtain ⟨tw1, n, h, h1, h2, h3⟩ := io.copyLoop_file chunks tw 0 [] herr hroom hlen
    exact ⟨tw1, n, by simpa [io.Copy] using h, h1, h2, h3⟩

/-! ### What reaches the file -/

theorem os.store_bounds (f : os.File) (p : Bytes) :
    (f.store p).off ≤ (f.store p).data.length := by
  simp only [os.File.store, List.length_append, List.length_take, List.length_replicate,
    List.length_drop]
  omega

theorem os.store_nil (f : os.File) (h : f.off ≤ f.data.length) : f.store [] = f := by
  cases f with
  | mk data off room seeks readErr =>
    simp only [os.File.store] at h ⊢
    have h0 : off - data.length = 0 := by omega
    simp [h0]

theorem os.store_store (f : os.File) (p q : Bytes) : (f.store p).store q = f.store (p ++ q) := by
  cases f with
  | mk data off room seeks readErr =>
    have hA : (data.take off ++ List.replicate (off - data.length) 0).length = off := by
      simp only [List.length_append, List.length_take, List.length_replicate]; omega
    generalize hAd : data.take off ++ List.replicate (off - data.length) 0 = A at hA
    simp only [os.File.store, hAd, List.append_assoc]
    have h1 : (A ++ (p ++ List.drop (off + p.length) data)).take (off + p.length) = A ++ p := by
      rw [← List.append_assoc, List.take_append_eq_append_take]
      simp [hA]
    have h2 : off + p.length - (A ++ (p ++ List.drop (off + p.length) data)).length = 0 := by
      simp only [List.length_append, hA]; omega
    have h3 : (A ++ (p ++ List.drop (off + p.length) data)).drop (off + p.length + q.length)
        = List.drop (off + (p ++ q).length) data := by
      rw [← List.append_assoc, List.drop_append_eq_append_drop]
      have hz : (A ++ p).drop (off + p.length + q.length) = [] := by
        apply List.drop_eq_nil_of_le
        simp only [List.length_append, hA]; omega
      rw [hz, List.nil_append, List.drop_drop]
      congr 1
      simp only [List.length_append, hA]; omega
    rw [h1, h2, h3]
    simp [Nat.add_assoc]

theorem tar.Flush_file_sink (tw : tar.Writer os.File) (herr : tw.err = none) (hnb : tw.nb = 0)
    (hroom : tw.w.room = none) :
    tw.Flush = ({ tw with w := tw.w.store (List.replicate tw.pad 0), pad := 0 }, none) := by
  have hw := os.Write_room_none tw.w (List.replicate tw.pad 0) hroom
  simp only [tar.Writer.Flush, herr, hnb, hw.1]
  simp

theorem tar.WriteHeader_file_sink (C : Codec) (tw : tar.Writer os.File) (hdr : tar.Header)
    (fm : tar.Formats) (blk : Bytes) (herr : tw.err = none) (hnb : tw.nb = 0)
    (hroom : tw.w.room = none) (hfm : tar.allowedFormats (tar.normalize hdr) = .ok fm)
    (hblk : tar.encodeHeader C (tar.normalize hdr) fm = .ok blk) :
    (tw.WriteHeader C hdr).1.w = tw.w.store (List.replicate tw.pad 0 ++ blk) ∧
    (tw.WriteHeader C hdr).1.pad = tar.blockPadding (tar.entrySize (tar.normalize hdr)) := by
  have ha := tar.Flush_file_sink tw herr hnb hroom
  have hroom1 : (tw.w.store (List.replicate tw.pad 0)).room = none :=
    (os.Write_room_none tw.w _ hroom).2
  have hb := tar.Flush_file_sink
    { tw with w := tw.w.store (List.replicate tw.pad 0), pad := 0 } herr hnb hroom1
  have hroom2 : ((tw.w.store (List.replicate tw.pad 0)).store (List.replicate 0 0)).room = none :=
    (os.Write_room_none _ _ hroom1).2
  have hw := os.Write_room_none _ blk hroom2
  simp only [tar.Writer.WriteHeader, ha, hfm, hblk, tar.Writer.writeRawHeader, hb, hw.1]
  refine ⟨?_, trivial⟩
  simp only [os.store_store]
  simp

theorem tar.Write_file_sink (tw : tar.Writer os.File) (b : Bytes) (herr : tw.err = none)
    (hroom : tw.w.room = none) (hlen : b.length ≤ tw.nb) (hoff : tw.w.off ≤ tw.w.data.length) :
    (tw.Write b).1.w = tw.w.store b ∧ (tw.Write b).1.pad = tw.pad := by
  have hw := os.Write_room_none tw.w b hroom
  have hno : ¬ b.length > tw.nb := by omega
  by_cases hb : b.length > 0
  · simp only [tar.Writer.Write, herr, hno, decide_False, Bool.false_eq_true, if_false, hb,
      if_true, hw.1]
    exact ⟨trivial, trivial⟩
  · have hb0 : b = [] := List.length_eq_zero.mp (by omega)
    subst hb0
    simp only [tar.Writer.Write, herr, hno, decide_False, Bool.false_eq_true, if_false]
    rw [if_neg (by simp)]
    exact ⟨(os.store_nil _ hoff).symm, rfl⟩

theorem io.copyLoop_file_sink (chunks : List Bytes) :
    ∀ (tw : tar.Writer os.File) (written : Nat) (pulled : Bytes), tw.err = none →
      tw.w.room = none → chunks.flatten.length ≤ tw.nb → tw.w.off ≤ tw.w.data.length →
      (io.copyLoop chunks none tw written pulled).1.w = tw.w.store chunks.flatten ∧
      (io.copyLoop chunks none tw written pulled).1.pad = tw.pad := by
  induction chunks with
  | nil =>
    intro tw written pulled herr hroom hlen hoff
    simp only [io.copyLoop, List.flatten_nil]
    exact ⟨(os.store_nil _ hoff).symm, trivial⟩
  | cons c cs ih =>
    intro tw written pulled herr hroom hlen hoff
    simp only [List.flatten_cons, List.length_append] at hlen
    unfold io.copyLoop
    split
    · rename_i hc
      have hc0 : c = [] := List.length_eq_zero.mp hc
      subst hc0
      simpa using ih tw written pulled herr hroom (by simpa using hlen) hoff
    · obtain ⟨twa, hw, ha1, ha2, ha3⟩ := tar.Write_file tw c herr hroom (by omega)
      have hs := tar.Write_file_sink tw c herr hroom (by omega) hoff
      rw [hw] at hs
      simp only at hs
      have hoffa : twa.w.off ≤ twa.w.data.length := by rw [hs.1]; exact os.store_bounds _ _
      have hi := ih twa (written + c.length) (pulled ++ c) ha1 ha3 (by omega) hoffa
      simp only [hw, ne_eq, not_true_eq_false, if_false]
      rw [hi.1, hi.2, hs.1, hs.2, os.store_store]
      simp

theorem io.Copy_file_sink (r : io.Reader) (tw : tar.Writer os.File) (herr : tw.err = none)
    (hroom : tw.w.room = none) (hlen : r.bytes.length ≤ tw.nb) (hlast : r.last = none)
    (hoff : tw.w.off ≤ tw.w.data.length) :
    (io.Copy tw r).1.w = tw.w.store r.bytes ∧ (io.Copy tw r).1.pad = tw.pad := by
  cases r with
  | mem r =>
    simp only [io.Reader.bytes] at hlen ⊢
    by_cases hi : r.i ≥ r.s.length
    · have : r.s.drop r.i = [] := List.drop_eq_nil_of_le hi
      simp only [io.Copy, hi, if_true, this]
      exact ⟨(os.store_nil _ hoff).symm, trivial⟩
    · have hs := tar.Write_file_sink tw _ herr hroom hlen hoff
      simp only [io.Copy, hi, if_false]
      exact hs
  | stream chunks last =>
    simp only [io.Reader.last] at hlast
    subst hlast
    simp only [io.Reader.bytes] at hlen ⊢
    simpa [io.Copy] using io.copyLoop_file_sink chunks tw 0 [] herr hroom hlen hoff

/-! ### Content that disagrees with the declared size -/

/-- C6, as amended: for a header with a size that is not negative, a reader that yields
more bytes than the size makes WriteFileToArchive return an error. A reader that yields
fewer bytes is not refused by WriteFileToArchive: whenever it returns nil for a header
that is not header-only and a reader that stops short of the size, the bytes still owed
are reported by the next Flush, Close or WriteHeader of that writer. -/
theorem C6_size_mismatch {σ : Type} [GoWriter σ] (C : Codec) (tw : tar.Writer σ)
    (hdr : tar.Header) (r : io.Reader) :
    (0 ≤ hdr.Size → (r.bytes.length : Int) > hdr.Size →
      (tarx.WriteFileToArchive C tw hdr r).2.1 ≠ none) ∧
    (∀ tw1 out, tarx.WriteFileToArchive C tw hdr r = (tw1, none, out) →
      tar.isHeaderOnlyType (tar.normalize hdr).Typeflag = false →
      (r.bytes.length : Int) < hdr.Size →
      tw1.Flush.2 = some (.missedWriting (hdr.Size.toNat - r.bytes.length)) ∧
      tw1.Close.2 = some (.missedWriting (hdr.Size.toNat - r.bytes.length)) ∧
      ∀ next, (tw1.WriteHeader C next).2 = some (.missedWriting (hdr.Size.toNat - r.bytes.length))) := by
  constructor
  · exact tarx.WriteFileToArchive_too_long C tw hdr r
  · intro tw1 out h hreg hfew
    have hW := tarx.WriteFileToArchive_ok C tw tw1 hdr r out h
    have hsz : tar.entrySize (tar.normalize hdr) = hdr.Size.toNat := by
      simp only [tar.entrySize, hreg, Bool.false_eq_true, if_false]
      rfl
    rw [hsz] at hW
    have hpos : 0 < tw1.nb := by rw [hW.2.2.2.1]; omega
    have hfl := tar.Flush_missed tw1 hW.2.1 hpos
    rw [hW.2.2.2.1] at hfl
    refine ⟨by rw [hfl], ?_, ?_⟩
    · simp [tar.Writer.Close, hW.2.1, hfl]
    · intro next
      simp [tar.Writer.WriteHeader, hfl]

/-- C6 as stated fails: a header of size 9 and a reader of 6 bytes, written to a fresh
file, make WriteFileToArchive return nil. -/
theorem C6_counterexample :
    (io.Reader.mem (strings.NewReader (ascii "what's"))).bytes.length = 6 ∧
    (tarx.NewHeader (ascii "foo.bar") {} 9 0o600).Size = 9 ∧
    (tarx.WriteFileToArchive plainCodec (tar.NewWriter os.CreateTemp)
        (tarx.NewHeader (ascii "foo.bar") {} 9 0o600)
        (.mem (strings.NewReader (ascii "what's")))).2.1 = none := by
  decide!

/-- The amended C6 on a header of size 9: 14 bytes are refused, and after 6 bytes the
next Flush reports 3 bytes missing. -/
theorem C6_witness :
    (tarx.WriteFileToArchive plainCodec (tar.NewWriter os.CreateTemp)
        (tarx.NewHeader (ascii "foo.bar") {} 9 0o600)
        (.mem (strings.NewReader (ascii "what's up, doc")))).2.1 ≠ none ∧
    (tarx.WriteFileToArchive plainCodec (tar.NewWriter os.CreateTemp)
        (tarx.NewHeader (ascii "foo.bar") {} 9 0o600)
        (.mem (strings.NewReader (ascii "what's")))).1.Flush.2 = some (.missedWriting 3) := by
  have h := C6_size_mismatch plainCodec (tar.NewWriter os.CreateTemp)
    (tarx.NewHeader (ascii "foo.bar") {} 9 0o600)
  refine ⟨(h (.mem (strings.NewReader (ascii "what's up, doc")))).1 (by decide) (by decide), ?_⟩
  exact ((h (.mem (strings.NewReader (ascii "what's")))).2 _ _ rfl (by decide) (by decide)).1

/-! ### Content that agrees with the declared size -/

theorem tarx.header_accepted (C : Codec) (name c : Bytes) (ts : tar.Time) (mode : Int)
    (hdr : tar.Header)
    (hhdr : hdr = tarx.HeaderFromReader name (strings.NewReader c) ∨
      hdr = tarx.NewHeader name ts c.length mode)
    (hnul : tar.hasNUL name = false) (hslash : tar.hasSlashSuffix name = false)
    (hfit : (tar.isASCII name = true ∧ name.length ≤ 100 ∧ c.length < 8589934592) ∨
      ∃ blk, C.pax (tar.normalize hdr) = .ok blk) :
    tar.entrySize (tar.normalize hdr) = c.length ∧
    ∃ fm blk, tar.allowedFormats (tar.normalize hdr) = .ok fm ∧
      tar.encodeHeader C (tar.normalize hdr) fm = .ok blk := by
  have hn : tar.normalize hdr = { Typeflag := tar.TypeReg, Name := name, Size := c.length, Mode := 0o600 } := by
    rcases hhdr with h | h <;> subst h <;>
      simp [tar.normalize, tarx.HeaderFromReader, tarx.NewHeader, hslash, tar.TypeRegA,
        strings.Reader.Size, strings.NewReader]
  rw [hn]
  constructor
  · simp [tar.entrySize, tar.isHeaderOnlyType, tar.TypeReg, tar.TypeLink, tar.TypeSymlink,
      tar.TypeChar, tar.TypeBlock, tar.TypeDir, tar.TypeFifo]
  · have hfm : tar.allowedFormats
        { Typeflag := tar.TypeReg, Name := name, Size := c.length, Mode := 0o600 }
        = .ok { ustar := (!(!tar.isASCII name || decide (name.length > 100)) || tar.splitUSTARPath name)
                  && decide (0 ≤ (c.length : Int) ∧ (c.length : Int) < 8589934592),
                pax := true, gnu := true } := by
      simp [tar.allowedFormats, tar.TypeReg, tar.TypeChar, tar.TypeBlock, tar.TypeFifo,
        tar.TypeGNUSparse, tar.TypeXHeader, tar.TypeGNULongName, tar.TypeGNULongLink,
        tar.TypeXGlobalHeader, tar.isHeaderOnlyType, tar.TypeLink, tar.TypeSymlink, tar.TypeDir,
        hslash, hnul]
    generalize hu : ((!(!tar.isASCII name || decide (name.length > 100)) || tar.splitUSTARPath name)
                  && decide (0 ≤ (c.length : Int) ∧ (c.length : Int) < 8589934592)) = u at hfm
    cases u with
    | true => exact ⟨_, _, hfm, rfl⟩
    | false =>
      rcases hfit with ⟨ha, hl, hc⟩ | ⟨blk, hb⟩
      · exfalso
        have hl2 : ¬ name.length > 100 := by omega
        have hc2 : (c.length : Int) < 8589934592 := by exact_mod_cast hc
        simp [ha, hl2, hc2] at hu
      · rw [hn] at hb
        exact ⟨_, blk, hfm, by simp [tar.encodeHeader, hb]⟩


/-- C7, as amended: for a content `c` and a file name without NUL and without a trailing
slash, whose header fits USTAR (ASCII name of at most 100 bytes, content under 8 GiB) or
is encoded by the PAX writer, the header built by HeaderFromReader over a fresh reader of
`c`, or by NewHeader with size len(c), is accepted and encoded into a block, and it is
written with a reader of `c` without error to a file that takes every write, by
CreateArchiveWith and by WriteFileToArchive on a writer that owes nothing (such as the one
CreateArchiveWith returns). What the file receives is the padding the writer still owed,
the header block, and then exactly the bytes of `c`; the bytes pulled from the reader are
`c`, nothing declared is outstanding, the padding owed next is that of len(c), and a
following Flush succeeds. -/
theorem C7_declared_size_is_written (C : Codec) (name c : Bytes) (ts : tar.Time) (mode : Int)
    (hdr : tar.Header) (r : io.Reader)
    (hhdr : hdr = tarx.HeaderFromReader name (strings.NewReader c) ∨
      hdr = tarx.NewHeader name ts c.length mode)
    (hr : r.bytes = c) (hlast : r.last = none)
    (hnul : tar.hasNUL name = false) (hslash : tar.hasSlashSuffix name = false)
    (hfit : (tar.isASCII name = true ∧ name.length ≤ 100 ∧ c.length < 8589934592) ∨
      ∃ blk, C.pax (tar.normalize hdr) = .ok blk) :
    ∃ fm blk, tar.allowedFormats (tar.normalize hdr) = .ok fm ∧
      tar.encodeHeader C (tar.normalize hdr) fm = .ok blk ∧
      (∀ dst : os.File, dst.room = none →
        (tarx.CreateArchiveWith C dst hdr r).2 = none ∧
        (tarx.CreateArchiveWith C dst hdr r).1.err = none ∧
        (tarx.CreateArchiveWith C dst hdr r).1.nb = 0 ∧
        (tarx.CreateArchiveWith C dst hdr r).1.w.room = none ∧
        (tarx.CreateArchiveWith C dst hdr r).1.Flush.2 = none ∧
        (tarx.CreateArchiveWith C dst hdr r).1.w = dst.store (blk ++ c) ∧
        (tarx.CreateArchiveWith C dst hdr r).1.pad = tar.blockPadding c.length) ∧
      (∀ tw : tar.Writer os.File, tw.err = none → tw.nb = 0 → tw.w.room = none →
        (tarx.WriteFileToArchive C tw hdr r).2.1 = none ∧
        (tarx.WriteFileToArchive C tw hdr r).2.2 = c ∧
        (tarx.WriteFileToArchive C tw hdr r).1.err = none ∧
        (tarx.WriteFileToArchive C tw hdr r).1.nb = 0 ∧
        (tarx.WriteFileToArchive C tw hdr r).1.w.room = none ∧
        (tarx.WriteFileToArchive C tw hdr r).1.Flush.2 = none ∧
        (tarx.WriteFileToArchive C tw hdr r).1.w
          = tw.w.store (List.replicate tw.pad 0 ++ blk ++ c) ∧
        (tarx.WriteFileToArchive C tw hdr r).1.pad = tar.blockPadding c.length) := by
  obtain ⟨hsz, fm, blk, hfm, hblk⟩ := tarx.header_accepted C name c ts mode hdr hhdr hnul hslash hfit
  have step : ∀ tw : tar.Writer os.File, tw.err = none → tw.nb = 0 → tw.w.room = none →
      ∃ tw2 n, tw.WriteHeader C hdr = ((tw.WriteHeader C hdr).1, none) ∧
        io.Copy (tw.WriteHeader C hdr).1 r = (tw2, n, none, c) ∧
        tw2.err = none ∧ tw2.nb = 0 ∧ tw2.w.room = none ∧ tw2.Flush.2 = none ∧
        tw2.w = tw.w.store (List.replicate tw.pad 0 ++ blk ++ c) ∧
        tw2.pad = tar.blockPadding c.length := by
    intro tw herr hnb hroom
    obtain ⟨tw1, h1, h1e, h1n, h1r⟩ := tar.WriteHeader_file C tw hdr fm blk herr hnb hroom hfm hblk
    have h1s := tar.WriteHeader_file_sink C tw hdr fm blk herr hnb hroom hfm hblk
    rw [h1] at h1s
    simp only at h1s
    obtain ⟨tw2, n, h2, h2e, h2n, h2r⟩ :=
      io.Copy_file r tw1 h1e h1r (by rw [h1n, hsz, hr]) hlast
    have h2s := io.Copy_file_sink r tw1 h1e h1r (by rw [h1n, hsz, hr]) hlast
      (by rw [h1s.1]; exact os.store_bounds _ _)
    rw [h2] at h2s
    simp only at h2s
    have h2n0 : tw2.nb = 0 := by rw [h2n, h1n, hsz, hr]; omega
    obtain ⟨tw3, h3, _⟩ := tar.Flush_file tw2 h2e h2n0 h2r
    refine ⟨tw2, n, by rw [h1], ?_, h2e, h2n0, h2r, by rw [h3], ?_, ?_⟩
    · rw [h1, h2, hr]
    · rw [h2s.1, h1s.1, os.store_store, hr]
    · rw [h2s.2, h1s.2, hsz]
  refine ⟨fm, blk, hfm, hblk, ?_, ?_⟩
  · intro dst hroom
    obtain ⟨tw2, n, hA, hB, h⟩ := step (tar.NewWriter dst) rfl rfl hroom
    have hC : tarx.CreateArchiveWith C dst hdr r = (tw2, none) := by
      simp only [tarx.CreateArchiveWith]
      rw [hA]
      simp only [hB]
    rw [hC]
    refine ⟨rfl, h.1, h.2.1, h.2.2.1, h.2.2.2.1, ?_, h.2.2.2.2.2⟩
    have := h.2.2.2.2.1
    simpa [tar.NewWriter] using this
  · intro tw herr hnb hroom
    obtain ⟨tw2, n, hA, hB, h⟩ := step tw herr hnb hroom
    have hC : tarx.WriteFileToArchive C tw hdr r = (tw2, none, c) := by
      simp only [tarx.WriteFileToArchive]
      rw [hA]
      simp only [hB]
    rw [hC]
    exact ⟨rfl, rfl, h⟩

/-- C7 as stated fails: for the file name "d/" and the content "x" the header declares
size 1, yet tar makes the entry a directory, which takes no content, and
CreateArchiveWith returns an error. -/
theorem C7_counterexample :
    tar.hasNUL (ascii "d/") = false ∧
    (tarx.HeaderFromReader (ascii "d/") (strings.NewReader (ascii "x"))).Size
      = ((ascii "x").length : Int) ∧
    (tarx.CreateArchiveWith plainCodec os.CreateTemp
        (tarx.HeaderFromReader (ascii "d/") (strings.NewReader (ascii "x")))
        (.mem (strings.NewReader (ascii "x")))).2
      = some (.wrapped .ErrWriteTooLong "failed to copy content") := by
  decide!


/-- The amended C7 on the two entries of the tests: example.txt is created and the file
holds its header block and "hello world"; foo.bar is appended to the writer returned and
the file then holds, after them, 501 bytes of padding, the second header block and
"what's up"; Flush succeeds. -/
theorem C7_witness :
    (tarx.CreateArchiveWith plainCodec os.CreateTemp
        (tarx.HeaderFromReader (ascii "example.txt") (strings.NewReader (ascii "hello world")))
        (.mem (strings.NewReader (ascii "hello world")))).2 = none ∧
    (tarx.CreateArchiveWith plainCodec os.CreateTemp
        (tarx.HeaderFromReader (ascii "example.txt") (strings.NewReader (ascii "hello world")))
        (.mem (strings.NewReader (ascii "hello world")))).1.w.data
      = ascii "example.txt" ++ List.replicate 501 0 ++ ascii "hello world" ∧
    (tarx.WriteFileToArchive plainCodec
        (tarx.CreateArchiveWith plainCodec os.CreateTemp
          (tarx.HeaderFromReader (ascii "example.txt") (strings.NewReader (ascii "hello world")))
          (.mem (strings.NewReader (ascii "hello world")))).1
        (tarx.NewHeader (ascii "foo.bar") {} 9 0o600)
        (.mem (strings.NewReader (ascii "what's up")))).2.1 = none ∧
    (tarx.WriteFileToArchive plainCodec
        (tarx.CreateArchiveWith plainCodec os.CreateTemp
          (tarx.HeaderFromReader (ascii "example.txt") (strings.NewReader (ascii "hello world")))
          (.mem (strings.NewReader (ascii "hello world")))).1
        (tarx.NewHeader (ascii "foo.bar") {} 9 0o600)
        (.mem (strings.NewReader (ascii "what's up")))).1.w.data
      = ascii "example.txt" ++ List.replicate 501 0 ++ ascii "hello world" ++ List.replicate 501 0
          ++ ascii "foo.bar" ++ List.replicate 505 0 ++ ascii "what's up" ∧
    (tarx.WriteFileToArchive plainCodec
        (tarx.CreateArchiveWith plainCodec os.CreateTemp
          (tarx.HeaderFromReader (ascii "example.txt") (strings.NewReader (ascii "hello world")))
          (.mem (strings.NewReader (ascii "hello world")))).1
        (tarx.NewHeader (ascii "foo.bar") {} 9 0o600)
        (.mem (strings.NewReader (ascii "what's up")))).1.Flush.2 = none := by
  obtain ⟨fm1, blk1, hfm1, hblk1, hc1, -⟩ := C7_declared_size_is_written plainCodec (ascii "example.txt")
    (ascii "hello world") {} 0 _ (.mem (strings.NewReader (ascii "hello world"))) (Or.inl rfl)
    rfl rfl (by decide) (by decide) (Or.inl (by decide))
  obtain ⟨fm2, blk2, hfm2, hblk2, -, hw2⟩ := C7_declared_size_is_written plainCodec (ascii "foo.bar") (ascii "what's up")
    {} 0o600 (tarx.NewHeader (ascii "foo.bar") {} 9 0o600)
    (.mem (strings.NewReader (ascii "what's up"))) (Or.inr rfl) rfl rfl
    (by decide) (by decide) (Or.inl (by decide))
  have h1 := hc1 os.CreateTemp rfl
  have h2 := hw2 _ h1.2.1 h1.2.2.1 h1.2.2.2.1
  have e1 : tar.allowedFormats (tar.normalize (tarx.HeaderFromReader (ascii "example.txt")
      (strings.NewReader (ascii "hello world")))) = .ok { ustar := true, pax := true, gnu := true } := rfl
  have e2 : tar.allowedFormats (tar.normalize (tarx.NewHeader (ascii "foo.bar") {} 9 0o600))
      = .ok { ustar := true, pax := true, gnu := true } := rfl
  rw [e1] at hfm1
  rw [e2] at hfm2
  cases hfm1
  cases hfm2
  have b1 : blk1 = ascii "example.txt" ++ List.replicate 501 0 := by
    have : tar.encodeHeader plainCodec (tar.normalize (tarx.HeaderFromReader (ascii "example.txt")
      (strings.NewReader (ascii "hello world")))) { ustar := true, pax := true, gnu := true }
        = .ok (ascii "example.txt" ++ List.replicate 501 0) := rfl
    rw [this] at hblk1
    cases hblk1
    rfl
  have b2 : blk2 = ascii "foo.bar" ++ List.replicate 505 0 := by
    have : tar.encodeHeader plainCodec (tar.normalize (tarx.NewHeader (ascii "foo.bar") {} 9 0o600))
        { ustar := true, pax := true, gnu := true }
        = .ok (ascii "foo.bar" ++ List.replicate 505 0) := rfl
    rw [this] at hblk2
    cases hblk2
    rfl
  subst b1
  subst b2
  refine ⟨h1.1, ?_, h2.1, ?_, h2.2.2.2.2.2.1⟩
  · rw [h1.2.2.2.2.2.1]
    decide!
  · rw [h2.2.2.2.2.2.2.1, h1.2.2.2.2.2.1, h1.2.2.2.2.2.2]
    decide!

/-! ### A malformed source -/

/-- What the loop of generate may have done to a source: nothing, or written its digest. -/
theorem provider.generateLoop_sources (C : Codec) (ts : tar.Time) :
    ∀ (sources : List SourceModel) (tw : Layers) (digest : Bytes),
      List.Forall₂ (fun u u1 => u1 = u ∨ u1 = u.digested) sources
        (generateLoop C ts sources tw digest).2.1 := by
  intro sources
  induction sources with
  | nil => intro tw digest; simp [generateLoop]
  | cons v vs ih =>
    intro tw digest
    have hrefl : List.Forall₂ (fun u u1 : SourceModel => u1 = u ∨ u1 = u.digested) (v :: vs) (v :: vs) :=
      List.forall₂_same.mpr (fun _ _ => Or.inl rfl)
    unfold generateLoop
    split
    · exact hrefl
    · rename_i decoded hdec
      dsimp only
      split
      · exact hrefl
      · rename_i twa localdigest hw
        have hW := tarx.WriteFileToArchive_ok C tw twa _ _ localdigest hw
        rw [io.TeeReader_bytes] at hW
        have hl : localdigest = decoded := hW.1
        subst hl
        have hd : v.decoded = localdigest := by simp [SourceModel.decoded, hdec]
        refine List.Forall₂.cons (Or.inr ?_) (ih twa (digest ++ localdigest))
        simp [SourceModel.digested, hd]

theorem provider.generate_sources (C : Codec) (ts : tar.Time) (dst : os.File)
    (data : ArchiveResourceModel) :
    (generate C ts dst data).data.Sources
      = (generateLoop C ts data.Sources
          (tar.NewWriter (gzip.NewWriter C (base64.NewEncoder dst))) []).2.1 := by
  generalize hl : generateLoop C ts data.Sources
      (tar.NewWriter (gzip.NewWriter C (base64.NewEncoder dst))) [] = res
  obtain ⟨err, sources, tw, digest⟩ := res
  cases err with
  | some e => simp [generate, hl]
  | none => exact (generate_of_loop_ok C ts dst data sources tw digest hl).2.2.2.1

theorem provider.generate_of_loop_err (C : Codec) (ts : tar.Time) (dst : os.File)
    (data : ArchiveResourceModel) (e : Error) (sources : List SourceModel) (tw : Layers)
    (digest : Bytes)
    (hloop : generateLoop C ts data.Sources
      (tar.NewWriter (gzip.NewWriter C (base64.NewEncoder dst))) [] = (some e, sources, tw, digest)) :
    generate C ts dst data
      = { err := some e, data := { data with Sources := sources }, tw := deferred tw,
          hashed := digest } := by
  simp only [generate, hloop]

theorem provider.generateLoop_malformed (C : Codec) (ts : tar.Time) (v : SourceModel)
    (post : List SourceModel) (e : Error)
    (hbad : (base64.DecodeString v.Base64.ValueString).2 = some e) :
    ∀ (pre : List SourceModel) (tw : Layers) (digest : Bytes),
      (∀ u ∈ pre, (base64.DecodeString u.Base64.ValueString).2 = none) →
      ∃ err pre1 tw1 digest1,
        generateLoop C ts (pre ++ v :: post) tw digest = (some err, pre1 ++ v :: post, tw1, digest1) ∧
        pre1.length = pre.length ∧ (err = e ∨ ∃ cause msg, err = .wrapped cause msg) := by
  intro pre
  induction pre with
  | nil =>
    intro tw digest _
    refine ⟨e, [], tw, digest, ?_, rfl, Or.inl rfl⟩
    simp only [List.nil_append, generateLoop]
    split
    · rename_i err hd
      rw [hd] at hbad
      simp only [Option.some.injEq] at hbad
      rw [hbad]
    · rename_i hd
      rw [hd] at hbad
      simp at hbad
  | cons u us ih =>
    intro tw digest hpre
    have hu : (base64.DecodeString u.Base64.ValueString).2 = none := hpre u (by simp)
    simp only [List.cons_append]
    unfold generateLoop
    split
    · rename_i err hd
      rw [hd] at hu
      simp at hu
    · rename_i decoded hdec
      dsimp only
      split
      · rename_i twa err localdigest hw
        refine ⟨err, u :: us, twa, digest ++ localdigest, rfl, rfl, Or.inr ?_⟩
        unfold tarx.WriteFileToArchive at hw
        split at hw
        · simp only [errorsx.Wrap, Prod.mk.injEq, Option.some.injEq] at hw
          exact ⟨_, _, hw.2.1.symm⟩
        · split at hw
          · simp only [errorsx.Wrap, Prod.mk.injEq, Option.some.injEq] at hw
            exact ⟨_, _, hw.2.1.symm⟩
          · simp at hw
      · rename_i twa localdigest hw
        obtain ⟨err, pre1, tw1, digest1, hl, hlen, herr⟩ :=
          ih twa (digest ++ localdigest) (fun x hx => hpre x (by simp [hx]))
        refine ⟨err, { u with Digest := .known (hex.EncodeToString (sha256.Sum256 localdigest)) } :: pre1,
          tw1, digest1, ?_, by simp [hlen], herr⟩
        rw [hl]
        rfl


/-- C11: when the source at index k (after the sources `pre`) is the first whose base64
field does not decode, generate returns an error, which is that decoding error unless an
earlier entry failed to be written; the sources from index k on are left as they were, so
no Digest is written on them, and data.Digest, data.ArchiveB64 and data.Timestamp keep
the values they had. -/
theorem C11_malformed_source_aborts (C : Codec) (ts : tar.Time) (dst : os.File)
    (data : ArchiveResourceModel) (pre post : List SourceModel) (v : SourceModel) (e : Error)
    (hsrc : data.Sources = pre ++ v :: post)
    (hfirst : ∀ u ∈ pre, (base64.DecodeString u.Base64.ValueString).2 = none)
    (hbad : (base64.DecodeString v.Base64.ValueString).2 = some e) :
    (generate C ts dst data).err ≠ none ∧
    ((generate C ts dst data).err = some e ∨
      ∃ cause msg, (generate C ts dst data).err = some (.wrapped cause msg)) ∧
    (generate C ts dst data).data.Sources.drop pre.length = v :: post ∧
    (generate C ts dst data).data.Sources.length = data.Sources.length ∧
    (generate C ts dst data).data.Digest = data.Digest ∧
    (generate C ts dst data).data.ArchiveB64 = data.ArchiveB64 ∧
    (generate C ts dst data).data.Timestamp = data.Timestamp := by
  obtain ⟨err, pre1, tw1, digest1, hl, hlen, herr⟩ :=
    generateLoop_malformed C ts v post e hbad pre
      (tar.NewWriter (gzip.NewWriter C (base64.NewEncoder dst))) [] hfirst
  rw [← hsrc] at hl
  have hg := generate_of_loop_err C ts dst data err _ tw1 digest1 hl
  rw [hg]
  refine ⟨by simp, ?_, ?_, ?_, rfl, rfl, rfl⟩
  · rcases herr with h | ⟨cause, msg, h⟩
    · left; rw [h]
    · right; exact ⟨cause, msg, by rw [h]⟩
  · simp [← hlen]
  · simp [hsrc, hlen]

/-- C11 on three sources of which the second is "!!!". -/
theorem C11_witness :
    (generate plainCodec {} os.CreateTemp
        { Sources := [src "YWI=" "one", src "!!!" "two", src "Y2Q=" "three"] }).err
      = some (.CorruptInputError 0) ∧
    (generate plainCodec {} os.CreateTemp
        { Sources := [src "YWI=" "one", src "!!!" "two", src "Y2Q=" "three"] }).data.Sources.drop 1
      = [src "!!!" "two", src "Y2Q=" "three"] ∧
    (generate plainCodec {} os.CreateTemp
        { Sources := [src "YWI=" "one", src "!!!" "two", src "Y2Q=" "three"] }).data.Digest
      = .unknown ∧
    (generate plainCodec {} os.CreateTemp
        { Sources := [src "YWI=" "one", src "!!!" "two", src "Y2Q=" "three"] }).data.ArchiveB64
      = .unknown := by
  have h := C11_malformed_source_aborts plainCodec {} os.CreateTemp
    { Sources := [src "YWI=" "one", src "!!!" "two", src "Y2Q=" "three"] }
    [src "YWI=" "one"] [src "Y2Q=" "three"] (src "!!!" "two") (.CorruptInputError 0)
    rfl (by decide) (by decide)
  refine ⟨by decide!, h.2.2.1, h.2.2.2.2.1, h.2.2.2.2.2.1⟩

/-! ### Plan-time and apply-time digests -/

theorem provider.PlanModifyString_valid (m : useSHA256OfAttribute) (req : StringRequest)
    (resp : StringResponse) (b : Bytes) (hattr : GetAttribute req m.attrname = .known b)
    (hvalid : (base64.DecodeString b).2 = none) :
    (m.PlanModifyString req resp).PlanValue
      = .known (hex.EncodeToString (sha256.Sum256 (base64.DecodeString b).1)) := by
  simp only [useSHA256OfAttribute.PlanModifyString, hattr, TfValue.ValueString]
  split
  · rename_i err hd
    rw [hd] at hvalid
    simp at hvalid
  · rename_i dec hd
    simp [hd]

theorem provider.forall2_index {α β : Type} {R : α → β → Prop} {l : List α} {l1 : List β}
    (h : List.Forall₂ R l l1) :
    ∀ (i : Nat) (a : α), l[i]? = some a → ∃ b, l1[i]? = some b ∧ R a b := by
  induction h with
  | nil => intro i a hi; simp at hi
  | cons hab _ ih =>
    intro i a hi
    cases i with
    | zero =>
      simp only [List.getElem?_cons_zero, Option.some.injEq] at hi
      subst hi
      exact ⟨_, by simp, hab⟩
    | succ i =>
      simp only [List.getElem?_cons_succ] at hi
      obtain ⟨b, hb, hr⟩ := ih i a hi
      exact ⟨b, by simpa using hb, hr⟩

/-- C12: for a base64 string `b` that StdEncoding decodes, the value that the plan
modifier plans from `b` is the hexadecimal SHA-256 of the decoded bytes, and a source with
base64 `b` at any index of any source list comes out of generate either untouched (the run
failed before writing it) or with exactly that value as its Digest; when generate
succeeds it carries that value. Codec, timestamp, destination, location, perm and the
other sources are arbitrary. -/
theorem C12_plan_digest_is_apply_digest (m : useSHA256OfAttribute) (req : StringRequest)
    (resp : StringResponse) (C : Codec) (ts : tar.Time) (dst : os.File)
    (data : ArchiveResourceModel) (b : Bytes) (i : Nat) (v : SourceModel)
    (hattr : GetAttribute req m.attrname = .known b)
    (hvalid : (base64.DecodeString b).2 = none)
    (hi : data.Sources[i]? = some v) (hb : v.Base64 = .known b) :
    (m.PlanModifyString req resp).PlanValue
      = .known (hex.EncodeToString (sha256.Sum256 (base64.DecodeString b).1)) ∧
    ((generate C ts dst data).data.Sources[i]? = some v ∨
      (generate C ts dst data).data.Sources[i]?
        = some { v with Digest := (m.PlanModifyString req resp).PlanValue }) ∧
    ((generate C ts dst data).err = none →
      (generate C ts dst data).data.Sources[i]?
        = some { v with Digest := (m.PlanModifyString req resp).PlanValue }) := by
  have hp := PlanModifyString_valid m req resp b hattr hvalid
  have hdig : v.digested = { v with Digest := (m.PlanModifyString req resp).PlanValue } := by
    rw [hp]
    simp [SourceModel.digested, SourceModel.decoded, hb, TfValue.ValueString]
  refine ⟨hp, ?_, ?_⟩
  · have hF := generateLoop_sources C ts data.Sources
      (tar.NewWriter (gzip.NewWriter C (base64.NewEncoder dst))) []
    rw [← generate_sources] at hF
    obtain ⟨v1, hv1, hr⟩ := forall2_index hF i v hi
    rcases hr with h | h
    · left; rw [hv1, h]
    · right; rw [hv1, h, hdig]
  · intro hok
    have hg := generate_ok C ts dst data hok
    rw [hg.1, List.getElem?_map, hi, ← hdig]
    rfl

/-- C12 on the base64 text of "what's up", second of two sources, with a perm set. -/
theorem C12_witness :
    ((UseSHA256OfAttribute "base64").PlanModifyString
        { Plan := fun _ => some (.known (ascii "d2hhdCdzIHVw")) } { PlanValue := .unknown }).PlanValue
      = .known (ascii "276f0597e3131667e652ed3675849c5aecad999abc93909ae486e571cccbc8f1") ∧
    (generate plainCodec ⟨7⟩ os.CreateTemp
        { Sources := [src "YWI=" "one",
                      { src "d2hhdCdzIHVw" "two" with Perm := .known 0o644 }] }).data.Sources[1]?
      = some { src "d2hhdCdzIHVw" "two" with
          Perm := .known 0o644
          Digest := .known (ascii "276f0597e3131667e652ed3675849c5aecad999abc93909ae486e571cccbc8f1") } := by
  have h := C12_plan_digest_is_apply_digest (UseSHA256OfAttribute "base64")
    { Plan := fun _ => some (.known (ascii "d2hhdCdzIHVw")) } { PlanValue := .unknown }
    plainCodec ⟨7⟩ os.CreateTemp
    { Sources := [src "YWI=" "one", { src "d2hhdCdzIHVw" "two" with Perm := .known 0o644 }] }
    (ascii "d2hhdCdzIHVw") 1 { src "d2hhdCdzIHVw" "two" with Perm := .known 0o644 }
    rfl (by decide) rfl rfl
  have hpv : ((UseSHA256OfAttribute "base64").PlanModifyString
        { Plan := fun _ => some (.known (ascii "d2hhdCdzIHVw")) } { PlanValue := .unknown }).PlanValue
      = .known (ascii "276f0597e3131667e652ed3675849c5aecad999abc93909ae486e571cccbc8f1") := by
    rw [h.1]; decide!
  refine ⟨hpv, ?_⟩
  rw [h.2.2 (by decide!), hpv]

/-! ### The empty source list -/

theorem tar.trailer_holds (z : gzip.Writer) (x zb : Bytes) (h : z.holds x)
    (hzb : zb = List.replicate 512 0) :
    ∃ z1, tar.Writer.trailer z 2 = (z1, none) ∧ z1.holds (x ++ zb ++ zb) ∧
      z1.compressor = z.compressor := by
  obtain ⟨z1, hw1, h1, hc1⟩ := gzip.holds_Write z x zb h
  obtain ⟨z2, hw2, h2, hc2⟩ := gzip.holds_Write z1 (x ++ zb) zb h1
  refine ⟨z2, ?_, h2, by rw [hc2, hc1]⟩
  simp only [tar.Writer.trailer, GoWriter.Write, ← hzb, hw1, hw2]

theorem tar.Close_holds (C : Codec) :
    ∃ z1 : gzip.Writer,
      (tar.NewWriter (gzip.NewWriter C (base64.NewEncoder os.CreateTemp))).Close
        = ({ w := z1, err := some .ErrWriteAfterClose }, none) ∧
      z1.holds (List.replicate 1024 0) ∧ z1.compressor = C.flate := by
  obtain ⟨z0, hw0, h0, hc0⟩ := gzip.holds_Write _ [] [] (gzip.holds_fresh C)
  obtain ⟨z1, hw1, h1, hc1⟩ := tar.trailer_holds z0 ([] ++ []) (List.replicate 512 0) h0 rfl
  have hrep : ([] : Bytes) ++ [] ++ List.replicate 512 0 ++ List.replicate 512 0
      = List.replicate 1024 0 := by
    rw [List.append_nil, List.nil_append, ← List.replicate_add]
  rw [hrep] at h1
  refine ⟨z1, ?_, h1, by rw [hc1, hc0]; rfl⟩
  have hpad : List.replicate 0 (0 : Nat) = [] := rfl
  simp only [tar.Writer.Close, tar.NewWriter, tar.Writer.Flush, GoWriter.Write, hpad, hw0, hw1]
  simp [hw1]

/-- C8: generate over an empty source list and a fresh temporary file returns no error,
sets data.Digest to the hexadecimal SHA-256 of the empty byte sequence (e3b0c442...),
and sets data.ArchiveB64 to the base64 text of the gzip stream of a tar archive without
entries, which is the 1024 zero bytes of the tar trailer. -/
theorem C8_empty_sources (C : Codec) (ts : tar.Time) (data : ArchiveResourceModel) :
    (generate C ts os.CreateTemp { data with Sources := [] }).err = none ∧
    (generate C ts os.CreateTemp { data with Sources := [] }).data.Digest
      = .known (hex.EncodeToString (sha256.Sum256 [])) ∧
    hex.EncodeToString (sha256.Sum256 [])
      = ascii "e3b0c44298fc1c149afbf4c8996fb92427ae41e4649b934ca495991b7852b855" ∧
    (generate C ts os.CreateTemp { data with Sources := [] }).data.ArchiveB64
      = .known (base64.Encode (C.gzip (List.replicate 1024 0))) ∧
    (generate C ts os.CreateTemp { data with Sources := [] }).data.Sources = [] := by
  obtain ⟨z1, hclose, hz1, hcomp⟩ := tar.Close_holds C
  obtain ⟨z2, hz2, he2⟩ := gzip.holds_Close z1 _ hz1
  rw [hcomp] at he2
  have he3 := base64.encoder_holds_Close z2.w _ he2
  have hgz : gzip.header ++ gzip.flushed C.flate [] (List.replicate 1024 0)
      ++ C.flate.finish (List.replicate 1024 0) = C.gzip (List.replicate 1024 0) := rfl
  rw [hgz] at he3
  generalize C.gzip (List.replicate 1024 0) = G at he3
  have hcl : closeLayers (tar.NewWriter (gzip.NewWriter C (base64.NewEncoder os.CreateTemp)))
      = ({ w := { z2 with w := z2.w.Close.1 }, err := some .ErrWriteAfterClose },
          [none, none, none]) := by
    simp only [closeLayers, hclose, hz2, he3.1]
  have hS := iox.String_fresh (base64.Encode G) (List.length (base64.Encode G))
  have hgen : generateLoop C ts []
      (tar.NewWriter (gzip.NewWriter C (base64.NewEncoder os.CreateTemp))) []
      = (none, [], tar.NewWriter (gzip.NewWriter C (base64.NewEncoder os.CreateTemp)), []) := rfl
  refine ⟨?_, ?_, by decide, ?_, ?_⟩
  all_goals
    unfold generate
    simp only [hgen]
    simp only [hcl]
    simp only [errorsx.Compact]
    simp only [he3.2, hS]
    rfl

/-! ### Closing order and the first error -/

theorem Prod.eta4 {α β γ δ : Type} (x : α × β × γ × δ) (a : α) (h : x.1 = a) :
    x = (a, x.2.1, x.2.2.1, x.2.2.2) := by
  obtain ⟨x1, x2, x3, x4⟩ := x
  simp only at h
  rw [h]

/-- C10: once the loop of generate has written every source, the Close calls run in the
order tar, gzip, base64, each on the layers as the call before left them and whatever
that call returned (afterwards the tar writer is closed, the gzip writer is closed or in
error, and the encoder is flushed or in error); generate returns the result of
errorsx.Compact over the three results when it is an error, and goes on to read the file
back when it is nil, which is exactly when all three are nil; Compact returns nil exactly
when every argument is nil, and otherwise the first argument that is not. -/
theorem C10_close_order_first_error (C : Codec) (ts : tar.Time) (dst : os.File)
    (data : ArchiveResourceModel) (sources : List SourceModel) (tw : Layers) (digest : Bytes)
    (hloop : generateLoop C ts data.Sources
      (tar.NewWriter (gzip.NewWriter C (base64.NewEncoder dst))) [] = (none, sources, tw, digest)) :
    (closeLayers tw).2 =
        [tw.Close.2, (tw.Close.1.w.Close).2, (tw.Close.1.w.Close).1.w.Close.2] ∧
    (closeLayers tw).1 =
        { tw.Close.1 with
          w := { (tw.Close.1.w.Close).1 with w := (tw.Close.1.w.Close).1.w.Close.1 } } ∧
    ((closeLayers tw).1.err ≠ none ∧
      ((closeLayers tw).1.w.closed = true ∨ (closeLayers tw).1.w.err ≠ none) ∧
      ((closeLayers tw).1.w.w.buf = [] ∨ (closeLayers tw).1.w.w.err ≠ none)) ∧
    (generate C ts dst data).err
        = (match errorsx.Compact (closeLayers tw).2 with
            | some e => some e
            | none => (iox.String (closeLayers tw).1.w.w.w).2.2) ∧
    (∀ e, errorsx.Compact (closeLayers tw).2 = some e → (generate C ts dst data).err = some e) ∧
    (errorsx.Compact (closeLayers tw).2 = none ↔
      tw.Close.2 = none ∧ (tw.Close.1.w.Close).2 = none ∧
        (tw.Close.1.w.Close).1.w.Close.2 = none) ∧
    ((generate C ts dst data).err = none →
      tw.Close.2 = none ∧ (tw.Close.1.w.Close).2 = none ∧
        (tw.Close.1.w.Close).1.w.Close.2 = none) ∧
    (∀ errs : List (Option Error), errorsx.Compact errs = none ↔ ∀ e ∈ errs, e = none) ∧
    (∀ (pre post : List (Option Error)) (e : Error), (∀ x ∈ pre, x = none) →
      errorsx.Compact (pre ++ some e :: post) = some e) := by
  have hg := generate_of_loop_ok C ts dst data sources tw digest hloop
  refine ⟨rfl, rfl, ⟨?_, ?_, ?_⟩, ?_, hg.1, ?_, ?_, errorsx.Compact_eq_none_iff,
    errorsx.Compact_append_some⟩
  · exact tar.Close_err tw
  · exact gzip.Close_done tw.Close.1.w
  · exact base64.encoder_Close_done _
  · simp only [generate, hloop]
    cases hc : errorsx.Compact (closeLayers tw).2 with
    | some e => simp only [hc]
    | none =>
      simp only [hc]
      split <;> simp_all [iox.String]
  · rw [errorsx.Compact_eq_none_iff]
    simp [closeLayers]
  · intro h
    have h2 := (errorsx.Compact_eq_none_iff _).1 (hg.2.1 h)
    simp only [closeLayers] at h2
    simpa using h2

/-- C10 on files that run out of room, with no source: on a full disk the tar Close fails
on the gzip header and the two other closes are still run and fail; with room for the
gzip header only the tar Close succeeds and the gzip Close is the first to fail; with
room for all but the last base64 group only the base64 Close fails; generate returns
that first error each time, and on a fresh file the three closes succeed. With one source
written and a compressor that hands every byte down, the tar Close is the first to fail
once the file is full. -/
theorem C10_witness :
    (closeLayers (tar.NewWriter (gzip.NewWriter plainCodec (base64.NewEncoder { room := some 0 })))).2
      = [some (.errno os.ENOSPC), some (.errno os.ENOSPC), some (.errno os.ENOSPC)] ∧
    (generate plainCodec {} { room := some 0 } { Sources := [] }).err
      = some (.errno os.ENOSPC) ∧
    (closeLayers (tar.NewWriter (gzip.NewWriter plainCodec (base64.NewEncoder { room := some 12 })))).2
      = [none, some (.errno os.ENOSPC), some (.errno os.ENOSPC)] ∧
    (generate plainCodec {} { room := some 12 } { Sources := [] }).err
      = some (.errno os.ENOSPC) ∧
    (closeLayers (tar.NewWriter (gzip.NewWriter plainCodec (base64.NewEncoder { room := some 1376 })))).2
      = [none, none, some (.errno os.ENOSPC)] ∧
    (generate plainCodec {} { room := some 1376 } { Sources := [] }).err
      = some (.errno os.ENOSPC) ∧
    (closeLayers (tar.NewWriter (gzip.NewWriter plainCodec (base64.NewEncoder os.CreateTemp)))).2
      = [none, none, none] ∧
    (generateLoop eagerCodec {} whatsUp.Sources
      (tar.NewWriter (gzip.NewWriter eagerCodec (base64.NewEncoder { room := some 1024 }))) []).1
      = none ∧
    (closeLayers (generateLoop eagerCodec {} whatsUp.Sources
      (tar.NewWriter (gzip.NewWriter eagerCodec (base64.NewEncoder { room := some 1024 }))) []).2.2.1).2
      = [some (.errno os.ENOSPC), some (.errno os.ENOSPC), some (.errno os.ENOSPC)] ∧
    (generate eagerCodec {} { room := some 1024 } whatsUp).err = some (.errno os.ENOSPC) := by
  have h0 := C10_close_order_first_error plainCodec {} { room := some 0 } { Sources := [] } []
    (tar.NewWriter (gzip.NewWriter plainCodec (base64.NewEncoder { room := some 0 }))) [] rfl
  have h12 := C10_close_order_first_error plainCodec {} { room := some 12 } { Sources := [] } []
    (tar.NewWriter (gzip.NewWriter plainCodec (base64.NewEncoder { room := some 12 }))) [] rfl
  have h1376 := C10_close_order_first_error plainCodec {} { room := some 1376 } { Sources := [] } []
    (tar.NewWriter (gzip.NewWriter plainCodec (base64.NewEncoder { room := some 1376 }))) [] rfl
  have hl : (generateLoop eagerCodec {} whatsUp.Sources
      (tar.NewWriter (gzip.NewWriter eagerCodec (base64.NewEncoder { room := some 1024 }))) []).1
      = none := by decide!
  have he := C10_close_order_first_error eagerCodec {} { room := some 1024 } whatsUp
    (generateLoop eagerCodec {} whatsUp.Sources
      (tar.NewWriter (gzip.NewWriter eagerCodec (base64.NewEncoder { room := some 1024 }))) []).2.1
    (generateLoop eagerCodec {} whatsUp.Sources
      (tar.NewWriter (gzip.NewWriter eagerCodec (base64.NewEncoder { room := some 1024 }))) []).2.2.1
    (generateLoop eagerCodec {} whatsUp.Sources
      (tar.NewWriter (gzip.NewWriter eagerCodec (base64.NewEncoder { room := some 1024 }))) []).2.2.2
    (Prod.eta4 _ _ hl)
  refine ⟨by decide!, h0.2.2.2.2.1 _ (by decide!), by decide!, h12.2.2.2.2.1 _ (by decide!),
    by decide!, h1376.2.2.2.2.1 _ (by decide!), by decide!, hl, by decide!,
    he.2.2.2.2.1 _ (by decide!)⟩

end Egt
